import Mathlib

/-!
Verification of the Pefindo JSON extraction script
(`json_extractor_nonapi.py`).

The script flattens one nested credit-bureau JSON report into nine flat
tables using pandas.  We embed the relevant fragment of pandas shallowly:

* a cell value (`Val`) is a scalar, null (also standing for `NaN` fill
  values), or an array of mappings (the unexpanded nested arrays);
* a dataframe (`DF`) is an ordered column-name list together with rows,
  each row an association list from column name to value (kept in column
  order, so that `pandas` positional behaviour is still visible);
* fallible pandas operations (`df[col]` on a missing column, building a
  frame from a non-list, `pd.concat([])`, comparing `None > 0`) are
  modelled with `Except Err`.

The Python functions `clean_column_names`, `extract_list_to_dataframe`,
`extract_facilities_history` and `extract_pefindo_data` are translated
definition by definition below.
-/

set_option maxRecDepth 100000

/-- A cell value: string, integer, null/NaN, or a nested array of
mappings (an array-of-objects column as produced by `pd.json_normalize`). -/
inductive Val where
  | vstr (s : String)
  | vint (n : Int)
  | vnull
  | vlist (elems : List (List (String × Val)))

/-- Is a value the null/NaN marker?  (Boolean observer; the nested
inductive does not support derived decidable equality.) -/
def Val.isNull : Val → Bool
  | .vnull => true
  | _ => false

/-- A dataframe: ordered column names plus rows; each row is an
association list whose keys follow `cols`. -/
@[ext]
structure DF where
  cols : List String
  rows : List (List (String × Val))

/-- The row keys of a well-formed frame follow its column list; every
frame the script builds satisfies this. -/
def Wf (df : DF) : Prop := ∀ r ∈ df.rows, r.map Prod.fst = df.cols

/-- Errors corresponding to the Python exceptions the script can raise
(`KeyError`, `TypeError`, `ValueError`), plus the explicit
`EmptyInputError` that the specification's error taxonomy prescribes for
reconciling an empty facility table. -/
inductive Err where
  | keyError (c : String)
  | typeError
  | valueError
  | emptyInputError
deriving DecidableEq, Repr

/-! ### Column-name cleaning

`clean_column_names` does
`df.columns.str.replace('report.debitur.', '', regex=False)` followed by
the same for `'report.header.'`.  `str.replace` with `regex=False`
removes every (left-to-right, non-overlapping) occurrence of the literal
pattern, not only a leading prefix; `stripAllF` models that scan with
explicit fuel so that it stays structurally recursive. -/

/-- Remove every non-overlapping occurrence of `p` from `s`, scanning
left to right; `fuel` bounds the recursion (use `s.length`). -/
def stripAllF (p : List Char) : Nat → List Char → List Char
  | _, [] => []
  | 0, s => s
  | fuel + 1, c :: cs =>
    if p.isPrefixOf (c :: cs) && !p.isEmpty then
      stripAllF p fuel (List.drop p.length (c :: cs))
    else
      c :: stripAllF p fuel cs

/-- Remove every occurrence of `p` from `s` (Python
`s.replace(p, '')` for a non-empty literal `p`). -/
def stripAll (p s : List Char) : List Char := stripAllF p s.length s

/-- Does `s` contain `p` as a contiguous substring? -/
def hasOccurB (p : List Char) : List Char → Bool
  | [] => p.isPrefixOf ([] : List Char)
  | c :: cs => p.isPrefixOf (c :: cs) || hasOccurB p cs

/-- The debtor-namespace pattern stripped by `clean_column_names`. -/
def dpat : List Char := "report.debitur.".toList

/-- The header-namespace pattern stripped by `clean_column_names`. -/
def hpat : List Char := "report.header.".toList

/-- What `clean_column_names` does to a single column name: remove all
occurrences of `'report.debitur.'`, then of `'report.header.'`. -/
def cleanName (s : String) : String := ⟨stripAll hpat (stripAll dpat s.data)⟩

/-- A name is clean-free when it contains neither pattern, so that
`cleanName` leaves it unchanged. -/
def cleanFree (s : String) : Bool := !hasOccurB dpat s.data && !hasOccurB hpat s.data

/-- Rename the keys of one row by `cleanName`. -/
def cleanRow (r : List (String × Val)) : List (String × Val) :=
  r.map (fun p => (cleanName p.1, p.2))

/-- `clean_column_names(df)`: strip both patterns from every column
name (the row keys are renamed consistently). -/
def clean_column_names (df : DF) : DF :=
  ⟨df.cols.map cleanName, df.rows.map cleanRow⟩

/-! ### Basic dataframe operations -/

/-- Value of a row at column `k`: the first entry with that key, `vnull`
when absent (pandas `NaN` fill). -/
def rowVal : List (String × Val) → String → Val
  | [], _ => .vnull
  | (k', v) :: rest, k => if k' = k then v else rowVal rest k

/-- The row at position `i` (rows are integer-indexed after
`ignore_index=True`). -/
def nthRow (df : DF) (i : Nat) : List (String × Val) := df.rows.getD i []

/-- Total observation `df[c][i]` (callers establish that `c` is present
and `i` in range where it matters). -/
def cellD (df : DF) (c : String) (i : Nat) : Val := rowVal (nthRow df i) c

/-- `df[c][i]` as the script performs it: `KeyError` when the column is
absent. -/
def getCellE (df : DF) (c : String) (i : Nat) : Except Err Val :=
  if df.cols.contains c then .ok (cellD df c i) else .error (.keyError c)

/-- `df[c]` as a whole column (used by `for riwayat in
df_facilities['riwayat_fasilitas']`). -/
def getColE (df : DF) (c : String) : Except Err (List Val) :=
  if df.cols.contains c then .ok (df.rows.map (fun r => rowVal r c))
  else .error (.keyError c)

/-- Python truthiness of a cell (`if item_list:`): empty list, empty
string, zero and `None` are falsy. -/
def truthy : Val → Bool
  | .vnull => false
  | .vint n => n != 0
  | .vstr s => s != ""
  | .vlist l => !l.isEmpty

/-- Append a key to an ordered key set if not already present. -/
def insKey (acc : List String) (k : String) : List String :=
  if acc.contains k then acc else acc ++ [k]

/-- Column set of `pd.DataFrame(list_of_dicts)`: union of the keys in
order of first appearance. -/
def dictCols (l : List (List (String × Val))) : List String :=
  l.foldl (fun acc e => e.foldl (fun a p => insKey a p.1) acc) []

/-- Rebuild a row on a given column list, `vnull` (NaN) for missing
keys. -/
def rebuildRow (cols : List String) (e : List (String × Val)) : List (String × Val) :=
  cols.map (fun c => (c, rowVal e c))

/-- `pd.DataFrame(list_of_dicts)`. -/
def dfOfRecords (l : List (List (String × Val))) : DF :=
  ⟨dictCols l, l.map (rebuildRow (dictCols l))⟩

/-- Replace the value stored under the first occurrence of key `k`. -/
def replaceVal (k : String) (v : Val) : List (String × Val) → List (String × Val)
  | [] => []
  | (k', w) :: rest => if k' = k then (k, v) :: rest else (k', w) :: replaceVal k v rest

/-- `df[k] = v` for a scalar `v`: overwrite the column if present,
otherwise append it; the value is broadcast to every row. -/
def setCol (df : DF) (k : String) (v : Val) : DF :=
  if df.cols.contains k then ⟨df.cols, df.rows.map (replaceVal k v)⟩
  else ⟨df.cols ++ [k], df.rows.map (fun r => r ++ [(k, v)])⟩

/-- Column union of `pd.concat` (`sort=False`): order of first
appearance. -/
def concatCols (dfs : List DF) : List String :=
  dfs.foldl (fun acc d => d.cols.foldl insKey acc) []

/-- `pd.concat(dfs, ignore_index=True)`: rows in order, reindexed on the
column union with NaN fill. -/
def concatDF (dfs : List DF) : DF :=
  let cs := concatCols dfs
  ⟨cs, (dfs.map (fun d => d.rows.map (rebuildRow cs))).flatten⟩

/-- `df.iloc[[i]][cs]`: the one-row frame holding row `i` restricted to
columns `cs`. -/
def selectRow (df : DF) (cs : List String) (i : Nat) : DF :=
  ⟨cs, [rebuildRow cs (nthRow df i)]⟩

/-- `df[cs]` column selection; `KeyError` on the first missing name. -/
def selectColsE (df : DF) (cs : List String) : Except Err DF :=
  match cs.find? (fun c => !df.cols.contains c) with
  | some c => .error (.keyError c)
  | none => .ok ⟨cs, df.rows.map (rebuildRow cs)⟩

/-- Elements of an array cell (`[]` for a non-list). -/
def elemsOf : Val → List (List (String × Val))
  | .vlist l => l
  | _ => []

/-- Length of an array cell (`0` for a non-list). -/
def elemsLen (v : Val) : Nat := (elemsOf v).length

/-- All keys occurring in the elements of an array cell. -/
def elemKeys (v : Val) : List String :=
  ((elemsOf v).map (fun e => e.map Prod.fst)).flatten

/-! ### `extract_list_to_dataframe`

The Python loop

```
for i in range(len(json_df)):
    item_list = json_df[column_name][i]
    if item_list:
        temp_df = pd.DataFrame(item_list)
        for col in cols_to_add:
            temp_df[col] = json_df[col][i]
        all_rows.append(temp_df)
if all_rows:
    result_df = pd.concat(all_rows, ignore_index=True)
    return clean_column_names(result_df)
else:
    return pd.DataFrame()
```

is split into `addCols` (the inner `for col in cols_to_add` loop),
`processRow` (one iteration of the outer loop) and `buildSubs` (the
outer loop itself, over an explicit index list). -/

/-- The inner loop `for col in cols_to_add: temp_df[col] = json_df[col][i]`.
`KeyError` surfaces at the first carried column missing from `json_df`. -/
def addCols (json_df : DF) (ks : List String) (i : Nat) (t : DF) : Except Err DF :=
  match ks with
  | [] => .ok t
  | k :: rest =>
    match getCellE json_df k i with
    | .error e => .error e
    | .ok v => addCols json_df rest i (setCol t k v)

/-- One iteration of the outer loop: `none` when the row is skipped
(falsy cell), `some sub` when a sub-table is appended. A truthy non-list
cell makes `pd.DataFrame` raise (`ValueError`). -/
def processRow (json_df : DF) (c : String) (ks : List String) (i : Nat) :
    Except Err (Option DF) :=
  match getCellE json_df c i with
  | .error e => .error e
  | .ok v =>
    if truthy v then
      match v with
      | .vlist l =>
        match addCols json_df ks i (dfOfRecords l) with
        | .error e => .error e
        | .ok t => .ok (some t)
      | _ => .error .valueError
    else .ok none

/-- The outer loop, collecting the per-row sub-tables in order. -/
def buildSubs (json_df : DF) (c : String) (ks : List String) :
    List Nat → Except Err (List DF)
  | [] => .ok []
  | i :: is =>
    match processRow json_df c ks i with
    | .error e => .error e
    | .ok none => buildSubs json_df c ks is
    | .ok (some t) =>
      match buildSubs json_df c ks is with
      | .error e => .error e
      | .ok rest => .ok (t :: rest)

/-- `extract_list_to_dataframe(json_df, column_name, cols_to_add)`. -/
def extract_list_to_dataframe (json_df : DF) (column_name : String)
    (cols_to_add : List String) : Except Err DF :=
  match buildSubs json_df column_name cols_to_add (List.range json_df.rows.length) with
  | .error e => .error e
  | .ok [] => .ok ⟨[], []⟩
  | .ok (s :: ss) => .ok (clean_column_names (concatDF (s :: ss)))

/-! ### `extract_facilities_history` -/

/-- The fixed carry-column list hard-coded in `extract_facilities_history`. -/
def colsToAddH : List String :=
  ["username", "nomor_identitas", "id_report", "tgl_permintaan", "npwp",
   "email", "telepon", "nomor_rekening_fasilitas", "id_jenis_fasilitas",
   "id_pelapor", "id_jenis_pelapor", "id_jenis_kredit", "id_sifat_kredit"]

/-- The scan `for riwayat in df_facilities['riwayat_fasilitas']: if riwayat:
sample_keys = list(riwayat[0].keys()); break`.  A truthy non-list cell
makes `riwayat[0]` raise (`TypeError`). -/
def findSampleKeys : List Val → Except Err (Option (List String))
  | [] => .ok none
  | v :: vs =>
    if truthy v then
      match v with
      | .vlist (e :: _) => .ok (some (e.map Prod.fst))
      | _ => .error .typeError
    else findSampleKeys vs

/-- `[col for col in df_facilities.columns if col in sample_keys]`.
When no facility has a non-empty history, `sample_keys` is `None` and
`col in None` raises `TypeError` as soon as one column is tested. -/
def computeMatching (cols : List String) : Option (List String) → Except Err (List String)
  | some sk => .ok (cols.filter (fun c => sk.contains c))
  | none => if cols.isEmpty then .ok [] else .error .typeError

/-- `value > 0` in Python: fine on a number, `False` on NaN, `TypeError`
on a non-numeric value. -/
def valGtZero : Val → Except Err Bool
  | .vint n => .ok (decide (0 < n))
  | .vnull => .ok false
  | _ => .error .typeError

/-- One iteration of the reconciler loop: expand a non-empty history
array as usual; for a falsy cell synthesize one row from the matching
columns with `snapshot_order = 1` and `status_tunggakan` derived from
`tunggakan_pokok > 0`, then carry the FK columns. -/
def processRowH (df : DF) (matching : List String) (i : Nat) : Except Err DF :=
  match getCellE df "riwayat_fasilitas" i with
  | .error e => .error e
  | .ok v =>
    if truthy v then
      match v with
      | .vlist l => addCols df colsToAddH i (dfOfRecords l)
      | _ => .error .valueError
    else
      match getCellE df "tunggakan_pokok" i with
      | .error e => .error e
      | .ok tv =>
        match valGtZero tv with
        | .error e => .error e
        | .ok b =>
          addCols df colsToAddH i
            (setCol (setCol (selectRow df matching i) "snapshot_order" (.vint 1))
              "status_tunggakan" (.vint (if b then 1 else 0)))

/-- The reconciler loop over an explicit index list; every row emits a
sub-table. -/
def buildSubsH (df : DF) (matching : List String) : List Nat → Except Err (List DF)
  | [] => .ok []
  | i :: is =>
    match processRowH df matching i with
    | .error e => .error e
    | .ok t =>
      match buildSubsH df matching is with
      | .error e => .error e
      | .ok rest => .ok (t :: rest)

/-- `extract_facilities_history(df_facilities)`.  `pd.concat([])` on an
empty accumulator raises `ValueError`. -/
def extract_facilities_history (df_facilities : DF) : Except Err DF :=
  match getColE df_facilities "riwayat_fasilitas" with
  | .error e => .error e
  | .ok colVals =>
    match findSampleKeys colVals with
    | .error e => .error e
    | .ok sk =>
      match computeMatching df_facilities.cols sk with
      | .error e => .error e
      | .ok matching =>
        match buildSubsH df_facilities matching (List.range df_facilities.rows.length) with
        | .error e => .error e
        | .ok [] => .error .valueError
        | .ok (s :: ss) => .ok (clean_column_names (concatDF (s :: ss)))

/-! ### `extract_pefindo_data` (without the file I/O and printing) -/

/-- `cols_basic`: the seven Identifier Columns under their dotted paths. -/
def colsBasic : List String :=
  ["report.header.username", "report.debitur.nomor_identitas",
   "report.header.id_report", "report.header.tgl_permintaan",
   "report.debitur.npwp", "report.debitur.email", "report.debitur.telepon"]

/-- `cols_facilities`: Identifier Columns (already cleaned) plus the
facility-level foreign keys. -/
def colsFacilities : List String :=
  ["username", "nomor_identitas", "id_report", "tgl_permintaan", "npwp",
   "email", "telepon", "nomor_rekening_fasilitas", "id_jenis_fasilitas",
   "id_pelapor", "id_jenis_pelapor", "id_jenis_kredit", "id_sifat_kredit"]

/-- Does a column name contain `'report.debitur'` as a substring
(Python `'report.debitur' in col`)? -/
def isDebiturCol (c : String) : Bool := hasOccurB "report.debitur".toList c.data

/-- The main orchestrator: builds the nine named tables from the loaded
single-row report frame. -/
def extract_pefindo_data (json_df : DF) : Except Err (List (String × DF)) :=
  match extract_list_to_dataframe json_df "scoring" colsBasic with
  | .error e => .error e
  | .ok scoring =>
    match selectColsE json_df
        (json_df.cols.filter isDebiturCol ++
         ["report.header.username", "report.header.id_report",
          "report.header.tgl_permintaan"]) with
    | .error e => .error e
    | .ok infoSummarySel =>
      match extract_list_to_dataframe json_df "report.fasilitas" colsBasic with
      | .error e => .error e
      | .ok facilities =>
        match extract_facilities_history facilities with
        | .error e => .error e
        | .ok facHistory =>
          match extract_list_to_dataframe facilities "agunan" colsFacilities with
          | .error e => .error e
          | .ok collateral =>
            match extract_list_to_dataframe facilities "penjamin" colsFacilities with
            | .error e => .error e
            | .ok guarantor =>
              match extract_list_to_dataframe json_df "report.permintaan_data" colsBasic with
              | .error e => .error e
              | .ok inquiry =>
                match extract_list_to_dataframe json_df
                    "report.summary_permintaan_data" colsBasic with
                | .error e => .error e
                | .ok inquirySummary =>
                  match extract_list_to_dataframe json_df
                      "report.riwayat_identitas_debitur" colsBasic with
                  | .error e => .error e
                  | .ok infoHistory =>
                    match extract_list_to_dataframe json_df
                        "report.summary_riwayat_debitur" colsBasic with
                    | .error e => .error e
                    | .ok collectibility =>
                      .ok [("pefindo_scoring", scoring),
                           ("pefindo_information_summary",
                            clean_column_names infoSummarySel),
                           ("pefindo_facilities", facilities),
                           ("pefindo_facilities_history", facHistory),
                           ("pefindo_facilities_collateral", collateral),
                           ("pefindo_facilities_guarantor", guarantor),
                           ("pefindo_inquiry", inquiry),
                           ("pefindo_inquiry_summary", inquirySummary),
                           ("pefindo_information_history", infoHistory),
                           ("pefindo_collectibility_history", collectibility)]

/-- The model of `clean_column_names`'s in-place effect: the heap is a
list of frames, a table object is a position into it; the function
renames the columns of the referenced frame in place and returns the
same reference (`df.columns = ...; return df`). -/
def clean_column_names_ref (heap : List DF) (r : Nat) : List DF × Nat :=
  (heap.set r (clean_column_names (heap.getD r ⟨[], []⟩)), r)

/-- The sub-table contributed by row `i` of the expander loop, if any
(`none` both for a skipped row and for an error; the success lemmas rule
the error case out). -/
def subOf (json_df : DF) (c : String) (ks : List String) (i : Nat) : Option DF :=
  match processRow json_df c ks i with
  | .ok o => o
  | .error _ => none

/-- The sub-table contributed by row `i` of the reconciler loop. -/
def subHOf (df : DF) (matching : List String) (i : Nat) : Option DF :=
  match processRowH df matching i with
  | .ok t => some t
  | .error _ => none

/-- The number of history rows row `i` of the reconciler contributes:
one per history element if the history cell is truthy, one synthesized
row otherwise. -/
def emitLenH (df : DF) (i : Nat) : Nat :=
  if truthy (cellD df "riwayat_fasilitas" i) then
    elemsLen (cellD df "riwayat_fasilitas" i)
  else 1

/-- The `status_tunggakan` value derived from a principal-arrears cell:
`1` if the number is positive, else `0` (NaN compares as not-positive). -/
def statusVal : Val → Val
  | .vint t => .vint (if 0 < t then 1 else 0)
  | _ => .vint 0

/-- The Identifier Columns after cleaning (what `cols_basic` becomes in
every child table). -/
def cleanedIds : List String :=
  ["username", "nomor_identitas", "id_report", "tgl_permintaan", "npwp",
   "email", "telepon"]

/-- The Identifier Columns, cleaned name paired with dotted source
path. -/
def idPairs : List (String × String) :=
  [("username", "report.header.username"),
   ("nomor_identitas", "report.debitur.nomor_identitas"),
   ("id_report", "report.header.id_report"),
   ("tgl_permintaan", "report.header.tgl_permintaan"),
   ("npwp", "report.debitur.npwp"),
   ("email", "report.debitur.email"),
   ("telepon", "report.debitur.telepon")]

/-- The array columns expanded directly from the Report Record. -/
def lvl1Arrays : List String :=
  ["scoring", "report.fasilitas", "report.permintaan_data",
   "report.summary_permintaan_data", "report.riwayat_identitas_debitur",
   "report.summary_riwayat_debitur"]

/-- The nine child tables of claim C1 (everything except the
single-row information summary). -/
def childTables : List String :=
  ["pefindo_scoring", "pefindo_facilities", "pefindo_facilities_history",
   "pefindo_facilities_collateral", "pefindo_facilities_guarantor",
   "pefindo_inquiry", "pefindo_inquiry_summary",
   "pefindo_information_history", "pefindo_collectibility_history"]

/-- A well-formed single-report frame: one row, non-null Identifier
Columns, and no nested key that would collide with an Identifier Column
under the column normalizer (the source leaves such collisions
undefined, compare the NameCollisionError note of the specification). -/
def GoodReport (j : DF) : Prop :=
  j.rows.length = 1 ∧
  (∀ d ∈ colsBasic, (cellD j d 0).isNull = false) ∧
  (∀ c ∈ lvl1Arrays, ∀ x ∈ elemKeys (cellD j c 0),
    cleanFree x = true ∧ x ∉ cleanedIds) ∧
  (∀ e ∈ elemsOf (cellD j "report.fasilitas" 0),
    ∀ a ∈ ["riwayat_fasilitas", "agunan", "penjamin"],
      ∀ x ∈ elemKeys (rowVal e a), cleanFree x = true)

/-- Unwrap a successful orchestrator run (used to name witness
outputs). -/
def okDOut : Except Err (List (String × DF)) → List (String × DF)
  | .ok l => l
  | .error _ => []

/-! ### Lemmas about pattern stripping -/

/-! ### Witness data and remaining derived definitions -/

/-- A once-problematic column name for the normalizer: stripping the
debtor pattern from it re-creates the pattern from the surrounding
fragments. -/
def c8df : DF := ⟨["report.report.debitur.debitur.x"], []⟩

/-- Witness frame for the amended C8 theorem. -/
def c8wdf : DF := ⟨["report.header.username"], [[("report.header.username", .vstr "u")]]⟩

/-- Witness heap for the C10 theorem. -/
def c10heap : List DF :=
  [⟨["report.debitur.npwp"], [[("report.debitur.npwp", .vstr "1")]]⟩, c8wdf]

/-- Witness frame for C5: one row whose array cell is the empty list. -/
def c5df : DF := ⟨["arr"], [[("arr", .vlist [])]]⟩

/-- Witness frame for the amended C7 theorem. -/
def c7df : DF := ⟨["arr"], [[("arr", .vlist [[("a", .vint 1)]])]]⟩

/-- The per-row effect of `setCol`: overwrite the entry if the column
exists, append otherwise. -/
def setFn (cols : List String) (k : String) (v : Val) (r : List (String × Val)) :
    List (String × Val) :=
  if cols.contains k then replaceVal k v r else r ++ [(k, v)]

/-- Witness frame for C3: row 0 has a two-element array, row 1 an empty
one. -/
def c3df : DF :=
  ⟨["arr", "fk"],
   [[("arr", .vlist [[("a", .vint 1)], [("a", .vint 2)]]), ("fk", .vstr "u")],
    [("arr", .vlist []), ("fk", .vstr "v")]]⟩

/-- The expander's output on `c3df`. -/
def c3out : DF :=
  ⟨["a", "fk"],
   [[("a", .vint 1), ("fk", .vstr "u")], [("a", .vint 2), ("fk", .vstr "u")]]⟩

/-- Unwrap a successful extraction (used to name witness outputs). -/
def okD : Except Err DF → DF
  | .ok d => d
  | .error _ => ⟨[], []⟩

/-- Column list of the witness facility table for C2. -/
def c2cols : List String := "riwayat_fasilitas" :: "tunggakan_pokok" :: colsToAddH

/-- A witness facility row with the given history and arrears cells. -/
def c2row (rw tp : Val) : List (String × Val) :=
  c2cols.map (fun c =>
    (c, if c = "riwayat_fasilitas" then rw
        else if c = "tunggakan_pokok" then tp else .vstr c))

/-- Witness facility table: one facility with history, one with empty
history and arrears 1500, one with empty history and arrears 0. -/
def c2fac : DF :=
  ⟨c2cols,
   [c2row (.vlist [[("snapshot_order", .vint 9), ("tunggakan_pokok", .vint 3)]]) (.vint 5),
    c2row (.vlist []) (.vint 1500),
    c2row (.vlist []) (.vint 0)]⟩

/-- The reconciler's output on `c2fac`. -/
def c2out : DF := okD (extract_facilities_history c2fac)

/-- Witness frame for C9: the single array element carries its own
conflicting value under the carry column `fk`. -/
def c9df : DF :=
  ⟨["arr", "fk"],
   [[("arr", .vlist [[("fk", .vstr "elem"), ("x", .vint 7)]]), ("fk", .vstr "parent")]]⟩

/-- The expander's output on `c9df`. -/
def c9out : DF := okD (extract_list_to_dataframe c9df "arr" ["fk"])

/-- First witness facility element: non-empty history, two collateral
entries. -/
def wfe1 : List (String × Val) :=
  [("nomor_rekening_fasilitas", .vstr "A1"), ("id_jenis_fasilitas", .vint 1),
   ("id_pelapor", .vint 2), ("id_jenis_pelapor", .vint 3), ("id_jenis_kredit", .vint 4),
   ("id_sifat_kredit", .vint 5), ("tunggakan_pokok", .vint 0),
   ("riwayat_fasilitas",
    .vlist [[("snapshot_order", .vint 1), ("tunggakan_pokok", .vint 0)]]),
   ("agunan", .vlist [[("jenis_agunan", .vstr "rumah")], [("jenis_agunan", .vstr "mobil")]]),
   ("penjamin", .vlist [[("nama_penjamin", .vstr "p")]])]

/-- Second witness facility element: empty history with arrears, one
collateral entry. -/
def wfe2 : List (String × Val) :=
  [("nomor_rekening_fasilitas", .vstr "B2"), ("id_jenis_fasilitas", .vint 6),
   ("id_pelapor", .vint 7), ("id_jenis_pelapor", .vint 8), ("id_jenis_kredit", .vint 9),
   ("id_sifat_kredit", .vint 10), ("tunggakan_pokok", .vint 1500),
   ("riwayat_fasilitas", .vlist []),
   ("agunan", .vlist [[("jenis_agunan", .vstr "tanah")]]),
   ("penjamin", .vlist [])]

/-- Witness single-row report frame exercising the whole pipeline. -/
def wjson : DF :=
  ⟨colsBasic ++ lvl1Arrays,
   [(colsBasic ++ lvl1Arrays).map (fun c =>
      (c, if c = "scoring" then Val.vlist [[("score", .vint 700)]]
          else if c = "report.fasilitas" then .vlist [wfe1, wfe2]
          else if c = "report.permintaan_data" then .vlist [[("q", .vint 1)]]
          else if c = "report.summary_permintaan_data" then .vlist []
          else if c = "report.riwayat_identitas_debitur" then .vlist []
          else if c = "report.summary_riwayat_debitur" then .vlist []
          else .vstr c))]⟩

/-- The orchestrator's output on `wjson`. -/
def wout : List (String × DF) := okDOut (extract_pefindo_data wjson)

/-- The facilities table of the witness run. -/
def wfac : DF := (List.lookup "pefindo_facilities" wout).getD ⟨[], []⟩

/-- The collateral table of the witness run. -/
def wcoll : DF := (List.lookup "pefindo_facilities_collateral" wout).getD ⟨[], []⟩

theorem stripAllF_no_occur (p : List Char) :
    ∀ (fuel : Nat) (s : List Char), hasOccurB p s = false → s.length ≤ fuel →
      stripAllF p fuel s = s := by
  intro fuel
  induction fuel with
  | zero =>
    intro s _ hlen
    have : s = [] := List.eq_nil_of_length_eq_zero (Nat.le_zero.mp hlen)
    subst this
    rfl
  | succ f ih =>
    intro s hocc hlen
    cases s with
    | nil => rfl
    | cons c cs =>
      have hsplit : p.isPrefixOf (c :: cs) = false ∧ hasOccurB p cs = false := by
        simpa [hasOccurB, Bool.or_eq_false_iff] using hocc
      have hlen2 : cs.length ≤ f := Nat.le_of_succ_le_succ hlen
      simp [stripAllF, hsplit.1, ih cs hsplit.2 hlen2]

theorem stripAll_no_occur (p s : List Char) (h : hasOccurB p s = false) :
    stripAll p s = s :=
  stripAllF_no_occur p s.length s h (Nat.le_refl _)

theorem cleanName_fixed (s : String) (h : cleanFree s = true) : cleanName s = s := by
  simp only [cleanFree, Bool.and_eq_true, Bool.not_eq_true'] at h
  show (⟨stripAll hpat (stripAll dpat s.data)⟩ : String) = s
  rw [stripAll_no_occur dpat s.data h.1, stripAll_no_occur hpat s.data h.2]

/-- Mapping a function that fixes every element of a list is the
identity. -/
theorem map_fix {α : Type} (f : α → α) (l : List α) (h : ∀ x ∈ l, f x = x) :
    l.map f = l := by
  induction l with
  | nil => rfl
  | cons a as ih =>
    simp only [List.map_cons, h a (by simp)]
    rw [ih (fun x hx => h x (by simp [hx]))]

/-- The keys of a cleaned row are the cleaned keys. -/
theorem cleanRow_keys (r : List (String × Val)) :
    (cleanRow r).map Prod.fst = (r.map Prod.fst).map cleanName := by
  simp [cleanRow, List.map_map]

/-- C8 counterexample: `clean_column_names` is not idempotent.  On the
single column `report.report.debitur.debitur.x` one application leaves
`report.debitur.x` (the removal re-creates the pattern), and a second
application strips it again, so re-applying is not a no-op. -/
theorem c8_counterexample :
    (clean_column_names (clean_column_names c8df)).cols ≠ (clean_column_names c8df).cols := by
  decide

/-- C8 (amended): `clean_column_names` removes every occurrence of the
two patterns anywhere in a column name, so (1) a name containing
neither pattern is left unchanged, and (2) re-applying it to a table is
a no-op provided the already-normalized column names contain no
remaining occurrence of either pattern (without that proviso idempotence
fails, see the counterexample). -/
theorem c8_normalizer_idempotent_amended :
    (∀ s : String, cleanFree s = true → cleanName s = s) ∧
    (∀ df : DF, Wf df → (∀ c ∈ (clean_column_names df).cols, cleanFree c = true) →
      clean_column_names (clean_column_names df) = clean_column_names df) := by
  refine ⟨fun s h => cleanName_fixed s h, fun df hwf hcf => ?_⟩
  apply DF.ext
  · exact map_fix cleanName _ (fun c hc => cleanName_fixed c (hcf c hc))
  · show ((clean_column_names df).rows).map cleanRow = (clean_column_names df).rows
    apply map_fix
    intro r' hr'
    have hr'' : r' ∈ df.rows.map cleanRow := hr'
    obtain ⟨r, hr, rfl⟩ := List.mem_map.mp hr''
    apply map_fix
    intro p hp
    have hkey : p.1 ∈ (clean_column_names df).cols := by
      have hkeys : (cleanRow r).map Prod.fst = df.cols.map cleanName := by
        rw [cleanRow_keys, hwf r hr]
      have hmem : p.1 ∈ (cleanRow r).map Prod.fst := List.mem_map_of_mem Prod.fst hp
      rw [hkeys] at hmem
      exact hmem
    have hfix := cleanName_fixed p.1 (hcf _ hkey)
    cases p with
    | mk a b =>
      show (cleanName a, b) = (a, b)
      rw [show cleanName a = a from hfix]

/-- Witness for the amended C8 theorem at concrete inputs. -/
theorem c8_normalizer_idempotent_amended_witness :
    (cleanFree "scoring" = true ∧ cleanName "scoring" = "scoring") ∧
    (Wf c8wdf ∧
      clean_column_names (clean_column_names c8wdf) = clean_column_names c8wdf) := by
  refine ⟨⟨by decide, c8_normalizer_idempotent_amended.1 "scoring" (by decide)⟩,
    ⟨?_, c8_normalizer_idempotent_amended.2 c8wdf ?_ ?_⟩⟩
  · unfold Wf
    decide
  · unfold Wf
    decide
  · decide

/-- C10: `clean_column_names` changes only column names: the returned
reference is the input reference (the frame is renamed in place, so the
caller's object is renamed too), every other heap entry is untouched,
and the renamed frame has the same number of rows with identical cell
values in corresponding positions. -/
theorem c10_normalizer_renames_in_place (heap : List DF) (r : Nat) (df : DF)
    (hr : r < heap.length) (hdf : heap.getD r ⟨[], []⟩ = df) :
    (clean_column_names_ref heap r).2 = r ∧
    (clean_column_names_ref heap r).1.length = heap.length ∧
    (clean_column_names_ref heap r).1.getD r ⟨[], []⟩ = clean_column_names df ∧
    (∀ j, j ≠ r → (clean_column_names_ref heap r).1.getD j ⟨[], []⟩ = heap.getD j ⟨[], []⟩) ∧
    (clean_column_names df).rows.length = df.rows.length ∧
    (clean_column_names df).rows.map (fun row => row.map Prod.snd) =
      df.rows.map (fun row => row.map Prod.snd) := by
  refine ⟨rfl, List.length_set heap r _, ?_, ?_, by simp [clean_column_names], ?_⟩
  · show (heap.set r (clean_column_names (heap.getD r ⟨[], []⟩))).getD r ⟨[], []⟩ = _
    rw [hdf, List.getD_eq_getElem?_getD, List.getElem?_set_eq_of_lt _ hr]
    rfl
  · intro j hj
    show (heap.set r _).getD j ⟨[], []⟩ = _
    rw [List.getD_eq_getElem?_getD, List.getElem?_set_ne (Ne.symm hj),
      ← List.getD_eq_getElem?_getD]
  · show (df.rows.map cleanRow).map (fun row => row.map Prod.snd) =
      df.rows.map (fun row => row.map Prod.snd)
    rw [List.map_map]
    apply List.map_congr_left
    intro row _
    simp [Function.comp, cleanRow, List.map_map]

/-- Witness for the C10 theorem at a concrete heap. -/
theorem c10_normalizer_renames_in_place_witness :
    0 < c10heap.length ∧ c10heap.getD 0 ⟨[], []⟩ = c10heap.getD 0 ⟨[], []⟩ ∧
    (clean_column_names_ref c10heap 0).2 = 0 ∧
    (clean_column_names (c10heap.getD 0 ⟨[], []⟩)).rows.map (fun row => row.map Prod.snd) =
      (c10heap.getD 0 ⟨[], []⟩).rows.map (fun row => row.map Prod.snd) :=
  ⟨by decide, rfl,
    (c10_normalizer_renames_in_place c10heap 0 _ (by decide) rfl).1,
    (c10_normalizer_renames_in_place c10heap 0 _ (by decide) rfl).2.2.2.2.2⟩

/-- When the array column is present but no cell is truthy, every loop
iteration is skipped and the accumulator stays empty. -/
theorem buildSubs_all_falsy (df : DF) (c : String) (ks : List String)
    (hc : df.cols.contains c = true) :
    ∀ is : List Nat, (∀ i ∈ is, truthy (cellD df c i) = false) →
      buildSubs df c ks is = .ok [] := by
  intro is
  induction is with
  | nil => intro _; rfl
  | cons j js ih =>
    intro h
    have hj := h j (by simp)
    have hrec := ih (fun i hi => h i (by simp [hi]))
    have hm : c ∈ df.cols := by simpa using hc
    simp [buildSubs, processRow, getCellE, hm, hj, hrec]

/-- C5: when no row contributes a sub-table the List Expander returns
the empty zero-column frame rather than raising, and running the
expander over that empty result again succeeds with the empty frame
even though the array and carry columns are absent from it. -/
theorem c5_empty_result_and_rerun :
    (∀ (df : DF) (c : String) (ks : List String),
        df.cols.contains c = true →
        (∀ i, i < df.rows.length → truthy (cellD df c i) = false) →
        extract_list_to_dataframe df c ks = .ok ⟨[], []⟩) ∧
    (∀ (c : String) (ks : List String),
        extract_list_to_dataframe ⟨[], []⟩ c ks = .ok ⟨[], []⟩) := by
  constructor
  · intro df c ks hc hfalsy
    unfold extract_list_to_dataframe
    rw [buildSubs_all_falsy df c ks hc _ (fun i hi => hfalsy i (List.mem_range.mp hi))]
  · intro c ks
    rfl

/-- Witness for C5 at a concrete frame. -/
theorem c5_empty_result_and_rerun_witness :
    c5df.cols.contains "arr" = true ∧
    (∀ i, i < c5df.rows.length → truthy (cellD c5df "arr" i) = false) ∧
    extract_list_to_dataframe c5df "arr" ["fk"] = .ok ⟨[], []⟩ :=
  ⟨by decide, by decide,
    c5_empty_result_and_rerun.1 c5df "arr" ["fk"] (by decide) (by decide)⟩

/-- Membership from a true `contains` test. -/
theorem contains_mem {l : List String} {a : String} (h : l.contains a = true) : a ∈ l := by
  simpa using h

/-- Non-membership from a false `contains` test. -/
theorem contains_not_mem {l : List String} {a : String} (h : l.contains a = false) : a ∉ l := by
  simpa using h

/-- C6 counterexample: on the zero-row, zero-column facility frame (the
value `extract_list_to_dataframe` returns when nothing was expanded) the
reconciler does fail, but with the unhandled `KeyError` from
`df_facilities['riwayat_fasilitas']`, not with the explicit
`EmptyInputError` of the specification's taxonomy. -/
theorem c6_counterexample :
    extract_facilities_history ⟨[], []⟩ = .error (.keyError "riwayat_fasilitas") ∧
    Err.keyError "riwayat_fasilitas" ≠ Err.emptyInputError :=
  ⟨rfl, by decide⟩

/-- C6 (amended): the reconciler fails on every zero-row facility table,
but the failure is an unhandled exception (`KeyError` when the column
set is empty, `TypeError` from `col in None` otherwise), never the
explicit `EmptyInputError`. -/
theorem c6_reconciler_empty_input_amended :
    ∀ df : DF, df.rows.length = 0 →
      ∃ e, extract_facilities_history df = .error e ∧ e ≠ Err.emptyInputError := by
  intro df hlen
  have hrows : df.rows = [] := List.eq_nil_of_length_eq_zero hlen
  cases hc : df.cols.contains "riwayat_fasilitas" with
  | false =>
    refine ⟨.keyError "riwayat_fasilitas", ?_, by decide⟩
    unfold extract_facilities_history
    simp [getColE, contains_not_mem hc]
  | true =>
    have hm : "riwayat_fasilitas" ∈ df.cols := contains_mem hc
    refine ⟨.typeError, ?_, by decide⟩
    unfold extract_facilities_history
    have hempty : df.cols.isEmpty = false := by
      cases hcols : df.cols with
      | nil => rw [hcols] at hm; cases hm
      | cons a as => rfl
    simp [getColE, hm, hrows, findSampleKeys, computeMatching, hempty]

/-- Witness for the amended C6 theorem: the zero-column frame. -/
theorem c6_reconciler_empty_input_amended_witness :
    (⟨[], []⟩ : DF).rows.length = 0 ∧
    ∃ e, extract_facilities_history ⟨[], []⟩ = .error e ∧ e ≠ Err.emptyInputError :=
  ⟨rfl, c6_reconciler_empty_input_amended ⟨[], []⟩ rfl⟩

/-- If some carried column is absent the inner carry loop raises. -/
theorem addCols_missing (df : DF) (i : Nat) :
    ∀ (ks : List String) (t : DF), (∃ k ∈ ks, df.cols.contains k = false) →
      ∃ e, addCols df ks i t = .error e := by
  intro ks
  induction ks with
  | nil =>
    intro t h
    obtain ⟨k, hk, _⟩ := h
    cases hk
  | cons k0 rest ih =>
    intro t h
    cases hc : df.cols.contains k0 with
    | false => exact ⟨.keyError k0, by simp [addCols, getCellE, contains_not_mem hc]⟩
    | true =>
      obtain ⟨k, hk, hkc⟩ := h
      have hkrest : k ∈ rest := by
        rcases List.mem_cons.mp hk with h0 | h1
        · subst h0
          rw [hc] at hkc
          cases hkc
        · exact h1
      obtain ⟨e, he⟩ := ih (setCol t k0 (cellD df k0 i)) ⟨k, hkrest, hkc⟩
      refine ⟨e, ?_⟩
      have hm : k0 ∈ df.cols := contains_mem hc
      simp [addCols, getCellE, hm, he]

/-- If the array column is present, some cell is truthy and some carry
column is missing, the outer loop raises. -/
theorem buildSubs_err_of_truthy (df : DF) (c : String) (ks : List String)
    (hc : df.cols.contains c = true) (hmiss : ∃ k ∈ ks, df.cols.contains k = false) :
    ∀ is : List Nat, (∃ i ∈ is, truthy (cellD df c i) = true) →
      ∃ e, buildSubs df c ks is = .error e := by
  have hm : c ∈ df.cols := contains_mem hc
  intro is
  induction is with
  | nil =>
    intro h
    obtain ⟨i, hi, _⟩ := h
    cases hi
  | cons j js ih =>
    intro h
    cases ht : truthy (cellD df c j) with
    | true =>
      cases hv : cellD df c j with
      | vlist l =>
        obtain ⟨e, he⟩ := addCols_missing df j ks (dfOfRecords l) hmiss
        refine ⟨e, ?_⟩
        rw [hv] at ht
        simp [buildSubs, processRow, getCellE, hm, hv, ht, he]
      | vstr s =>
        refine ⟨.valueError, ?_⟩
        rw [hv] at ht
        simp [buildSubs, processRow, getCellE, hm, hv, ht]
      | vint n =>
        refine ⟨.valueError, ?_⟩
        rw [hv] at ht
        simp [buildSubs, processRow, getCellE, hm, hv, ht]
      | vnull =>
        rw [hv] at ht
        cases ht
    | false =>
      have hjs : ∃ i ∈ js, truthy (cellD df c i) = true := by
        obtain ⟨i, hi, hti⟩ := h
        rcases List.mem_cons.mp hi with h0 | h1
        · subst h0
          rw [ht] at hti
          cases hti
        · exact ⟨i, h1, hti⟩
      obtain ⟨e, he⟩ := ih hjs
      refine ⟨e, ?_⟩
      simp [buildSubs, processRow, getCellE, hm, ht, he]

/-- C7 counterexample: on a zero-row frame the expander succeeds even
though both the array column and the carry column are absent — the
failing accesses sit inside the row loop, which never runs. -/
theorem c7_counterexample :
    (⟨[], []⟩ : DF).cols.contains "arr" = false ∧
    (⟨[], []⟩ : DF).cols.contains "fk" = false ∧
    extract_list_to_dataframe ⟨[], []⟩ "arr" ["fk"] = .ok ⟨[], []⟩ :=
  ⟨rfl, rfl, rfl⟩

/-- C7 (amended): the expander fails on an absent array column only when
the table has at least one row (`KeyError` on the first iteration), and
on an absent carry column only when some row's array cell is truthy (the
carry loop only runs for expanded rows). -/
theorem c7_missing_columns_amended :
    ∀ (df : DF) (c : String) (ks : List String),
      (df.rows ≠ [] → df.cols.contains c = false →
        extract_list_to_dataframe df c ks = .error (.keyError c)) ∧
      (df.cols.contains c = true →
        (∃ i, i < df.rows.length ∧ truthy (cellD df c i) = true) →
        (∃ k ∈ ks, df.cols.contains k = false) →
        ∃ e, extract_list_to_dataframe df c ks = .error e) := by
  intro df c ks
  constructor
  · intro hne hc
    have hlen : df.rows.length ≠ 0 := fun h => hne (List.eq_nil_of_length_eq_zero h)
    obtain ⟨m, hm⟩ := Nat.exists_eq_succ_of_ne_zero hlen
    unfold extract_list_to_dataframe
    rw [hm, List.range_succ_eq_map]
    simp [buildSubs, processRow, getCellE, contains_not_mem hc]
  · intro hc hex hmiss
    obtain ⟨i, hi, ht⟩ := hex
    obtain ⟨e, he⟩ :=
      buildSubs_err_of_truthy df c ks hc hmiss _ ⟨i, List.mem_range.mpr hi, ht⟩
    refine ⟨e, ?_⟩
    unfold extract_list_to_dataframe
    rw [he]

/-- Witness for the amended C7 theorem at concrete inputs. -/
theorem c7_missing_columns_amended_witness :
    (c7df.rows ≠ [] ∧ c7df.cols.contains "nope" = false ∧
      extract_list_to_dataframe c7df "nope" [] = .error (.keyError "nope")) ∧
    (c7df.cols.contains "arr" = true ∧
      (∃ i, i < c7df.rows.length ∧ truthy (cellD c7df "arr" i) = true) ∧
      (∃ k ∈ ["fk"], c7df.cols.contains k = false) ∧
      ∃ e, extract_list_to_dataframe c7df "arr" ["fk"] = .error e) := by
  refine ⟨⟨?_, by decide, (c7_missing_columns_amended c7df "nope" []).1 ?_ (by decide)⟩,
    by decide, ⟨0, by decide, by decide⟩,
    ⟨"fk", by decide, by decide⟩,
    (c7_missing_columns_amended c7df "arr" ["fk"]).2 (by decide)
      ⟨0, by decide, by decide⟩ ⟨"fk", by decide, by decide⟩⟩
  · intro h
    cases h
  · intro h
    cases h

/-! ### Row-level lemmas -/

theorem rowVal_not_mem (r : List (String × Val)) (k : String)
    (h : k ∉ r.map Prod.fst) : rowVal r k = .vnull := by
  induction r with
  | nil => rfl
  | cons p rest ih =>
    cases p with
    | mk k0 v0 =>
      have hne : k0 ≠ k := by
        intro he
        exact h (by simp [he])
      simp only [rowVal, if_neg hne]
      exact ih (fun hm => h (by simp [hm]))

theorem rowVal_append_of_mem (r s : List (String × Val)) (k : String)
    (h : k ∈ r.map Prod.fst) : rowVal (r ++ s) k = rowVal r k := by
  induction r with
  | nil => cases h
  | cons p rest ih =>
    cases p with
    | mk k0 v0 =>
      by_cases he : k0 = k
      · simp [rowVal, he]
      · have hrest : k ∈ rest.map Prod.fst := by
          rcases List.mem_map.mp h with ⟨q, hq, hq1⟩
          rcases List.mem_cons.mp hq with h0 | h1
          · exfalso
            apply he
            rw [h0] at hq1
            exact hq1
          · exact List.mem_map.mpr ⟨q, h1, hq1⟩
        simp [rowVal, he, ih hrest]

theorem rowVal_append_of_not_mem (r s : List (String × Val)) (k : String)
    (h : k ∉ r.map Prod.fst) : rowVal (r ++ s) k = rowVal s k := by
  induction r with
  | nil => rfl
  | cons p rest ih =>
    cases p with
    | mk k0 v0 =>
      have hne : k0 ≠ k := by
        intro he
        exact h (by simp [he])
      simp only [List.cons_append, rowVal, if_neg hne]
      exact ih (fun hm => h (by simp [hm]))

theorem rebuildRow_keys (cs : List String) (e : List (String × Val)) :
    (rebuildRow cs e).map Prod.fst = cs := by
  induction cs with
  | nil => rfl
  | cons c rest ih => simpa [rebuildRow] using ih

theorem rowVal_rebuild (cs : List String) (e : List (String × Val)) (k : String) :
    rowVal (rebuildRow cs e) k = if k ∈ cs then rowVal e k else .vnull := by
  induction cs with
  | nil => rfl
  | cons c rest ih =>
    show rowVal ((c, rowVal e c) :: rebuildRow rest e) k = _
    by_cases he : c = k
    · subst he
      show (if c = c then rowVal e c else rowVal (rebuildRow rest e) c) = _
      rw [if_pos rfl, if_pos (by simp)]
    · show (if c = k then rowVal e c else rowVal (rebuildRow rest e) k) = _
      rw [if_neg he, ih]
      by_cases hk : k ∈ rest
      · rw [if_pos hk, if_pos (by simp [hk])]
      · have hnc : ¬ k = c := fun h => he h.symm
        rw [if_neg hk, if_neg (by simp [List.mem_cons, hk, hnc])]

theorem rowVal_rebuild_of_keys_sub (cs : List String) (e : List (String × Val)) (k : String)
    (h : ∀ x ∈ e.map Prod.fst, x ∈ cs) : rowVal (rebuildRow cs e) k = rowVal e k := by
  rw [rowVal_rebuild]
  by_cases hk : k ∈ cs
  · rw [if_pos hk]
  · rw [if_neg hk, rowVal_not_mem e k (fun hm => hk (h k hm))]

theorem replaceVal_keys (k : String) (v : Val) (r : List (String × Val)) :
    (replaceVal k v r).map Prod.fst = r.map Prod.fst := by
  induction r with
  | nil => rfl
  | cons p rest ih =>
    cases p with
    | mk k0 v0 =>
      by_cases he : k0 = k
      · subst he
        simp [replaceVal]
      · simp [replaceVal, he, ih]

theorem rowVal_replace_self (k : String) (v : Val) (r : List (String × Val))
    (h : k ∈ r.map Prod.fst) : rowVal (replaceVal k v r) k = v := by
  induction r with
  | nil => cases h
  | cons p rest ih =>
    cases p with
    | mk k0 v0 =>
      by_cases he : k0 = k
      · subst he
        simp [replaceVal, rowVal]
      · have hrest : k ∈ rest.map Prod.fst := by
          rcases List.mem_map.mp h with ⟨q, hq, hq1⟩
          rcases List.mem_cons.mp hq with h0 | h1
          · exfalso
            apply he
            rw [h0] at hq1
            exact hq1
          · exact List.mem_map.mpr ⟨q, h1, hq1⟩
        simp [replaceVal, he, rowVal, ih hrest]

theorem rowVal_replace_other (k k'' : String) (v : Val) (r : List (String × Val))
    (h : k'' ≠ k) : rowVal (replaceVal k v r) k'' = rowVal r k'' := by
  induction r with
  | nil => rfl
  | cons p rest ih =>
    cases p with
    | mk k0 v0 =>
      by_cases he : k0 = k
      · show rowVal (if k0 = k then (k, v) :: rest else (k0, v0) :: replaceVal k v rest) k'' = _
        rw [if_pos he]
        show (if k = k'' then v else rowVal rest k'') = _
        rw [if_neg (fun hx => h hx.symm)]
        show _ = (if k0 = k'' then v0 else rowVal rest k'')
        rw [if_neg (he ▸ (fun hx => h hx.symm))]
      · show rowVal (if k0 = k then (k, v) :: rest else (k0, v0) :: replaceVal k v rest) k'' = _
        rw [if_neg he]
        show (if k0 = k'' then v0 else rowVal (replaceVal k v rest) k'') =
          (if k0 = k'' then v0 else rowVal rest k'')
        rw [ih]

theorem rowVal_setFn_self (cols : List String) (k : String) (v : Val)
    (r : List (String × Val)) (hkeys : r.map Prod.fst = cols) :
    rowVal (setFn cols k v r) k = v := by
  unfold setFn
  cases hc : cols.contains k with
  | true =>
    rw [if_pos rfl]
    exact rowVal_replace_self k v r (by rw [hkeys]; exact contains_mem hc)
  | false =>
    rw [if_neg (by simp)]
    rw [rowVal_append_of_not_mem r _ k (by rw [hkeys]; exact contains_not_mem hc)]
    simp [rowVal]

theorem rowVal_setFn_other (cols : List String) (k k'' : String) (v : Val)
    (r : List (String × Val)) (hne : k'' ≠ k) :
    rowVal (setFn cols k v r) k'' = rowVal r k'' := by
  unfold setFn
  cases hc : cols.contains k with
  | true =>
    rw [if_pos rfl]
    exact rowVal_replace_other k k'' v r hne
  | false =>
    rw [if_neg (by simp)]
    by_cases hm : k'' ∈ r.map Prod.fst
    · exact rowVal_append_of_mem r _ k'' hm
    · rw [rowVal_append_of_not_mem r _ k'' hm, rowVal_not_mem r k'' hm]
      show (if k = k'' then v else rowVal [] k'') = Val.vnull
      rw [if_neg (fun hx => hne hx.symm)]
      rfl

theorem setFn_keys (cols : List String) (k : String) (v : Val)
    (r : List (String × Val)) (hkeys : r.map Prod.fst = cols) :
    (setFn cols k v r).map Prod.fst =
      (if cols.contains k then cols else cols ++ [k]) := by
  unfold setFn
  cases hc : cols.contains k with
  | true =>
    rw [if_pos rfl, if_pos rfl, replaceVal_keys, hkeys]
  | false =>
    rw [if_neg (by simp), if_neg (by simp)]
    simp [hkeys]

theorem setCol_rows (df : DF) (k : String) (v : Val) :
    (setCol df k v).rows = df.rows.map (setFn df.cols k v) := by
  unfold setCol setFn
  cases hc : df.cols.contains k with
  | true => simp
  | false => simp

theorem setCol_cols (df : DF) (k : String) (v : Val) :
    (setCol df k v).cols = (if df.cols.contains k then df.cols else df.cols ++ [k]) := by
  unfold setCol
  cases hc : df.cols.contains k with
  | true => simp
  | false => simp

theorem setCol_cols_sub (df : DF) (k : String) (v : Val) :
    ∀ x ∈ (setCol df k v).cols, x ∈ df.cols ∨ x = k := by
  intro x hx
  rw [setCol_cols] at hx
  by_cases hc : df.cols.contains k = true
  · rw [if_pos hc] at hx
    exact Or.inl hx
  · rw [if_neg hc] at hx
    rcases List.mem_append.mp hx with h1 | h2
    · exact Or.inl h1
    · exact Or.inr (by simpa using h2)

/-! ### Ordered key-union lemmas (`insKey` folds) -/

theorem insKey_mem_self (acc : List String) (k : String) : k ∈ insKey acc k := by
  unfold insKey
  by_cases hc : acc.contains k = true
  · rw [if_pos hc]
    exact contains_mem hc
  · rw [if_neg hc]
    simp

theorem insKey_mono (acc : List String) (k x : String) (h : x ∈ acc) : x ∈ insKey acc k := by
  unfold insKey
  by_cases hc : acc.contains k = true
  · rw [if_pos hc]
    exact h
  · rw [if_neg hc]
    exact List.mem_append.mpr (Or.inl h)

theorem insKey_sub (acc : List String) (k x : String) (h : x ∈ insKey acc k) :
    x ∈ acc ∨ x = k := by
  unfold insKey at h
  by_cases hc : acc.contains k = true
  · rw [if_pos hc] at h
    exact Or.inl h
  · rw [if_neg hc] at h
    rcases List.mem_append.mp h with h1 | h2
    · exact Or.inl h1
    · exact Or.inr (by simpa using h2)

theorem insKey_nodup (acc : List String) (k : String) (h : acc.Nodup) :
    (insKey acc k).Nodup := by
  unfold insKey
  by_cases hc : acc.contains k = true
  · rw [if_pos hc]
    exact h
  · rw [if_neg hc]
    refine List.nodup_append.mpr ⟨h, List.nodup_singleton k, ?_⟩
    intro a ha hak
    have : a = k := by simpa using hak
    subst this
    exact (fun hx => hc (by simpa using hx)) ha

/-- Folding the keys of one record into an ordered union. -/
theorem rowFold_mono (e : List (String × Val)) :
    ∀ acc : List String, ∀ x ∈ acc, x ∈ e.foldl (fun a p => insKey a p.1) acc := by
  induction e with
  | nil => intro acc x h; exact h
  | cons p rest ih =>
    intro acc x h
    exact ih (insKey acc p.1) x (insKey_mono acc p.1 x h)

theorem rowFold_mem (e : List (String × Val)) :
    ∀ acc : List String, ∀ p ∈ e, p.1 ∈ e.foldl (fun a p => insKey a p.1) acc := by
  induction e with
  | nil => intro acc p h; cases h
  | cons q rest ih =>
    intro acc p h
    rcases List.mem_cons.mp h with h0 | h1
    · subst h0
      exact rowFold_mono rest (insKey acc p.1) p.1 (insKey_mem_self acc p.1)
    · exact ih (insKey acc q.1) p h1

theorem rowFold_sub (e : List (String × Val)) :
    ∀ acc : List String, ∀ x ∈ e.foldl (fun a p => insKey a p.1) acc,
      x ∈ acc ∨ x ∈ e.map Prod.fst := by
  induction e with
  | nil => intro acc x h; exact Or.inl h
  | cons q rest ih =>
    intro acc x h
    rcases ih (insKey acc q.1) x h with h1 | h2
    · rcases insKey_sub acc q.1 x h1 with h3 | h4
      · exact Or.inl h3
      · exact Or.inr (by simp [h4])
    · exact Or.inr (by simp [h2])

theorem rowFold_nodup (e : List (String × Val)) :
    ∀ acc : List String, acc.Nodup → (e.foldl (fun a p => insKey a p.1) acc).Nodup := by
  induction e with
  | nil => intro acc h; exact h
  | cons q rest ih =>
    intro acc h
    exact ih (insKey acc q.1) (insKey_nodup acc q.1 h)

theorem dictColsAux_mono (l : List (List (String × Val))) :
    ∀ acc : List String, ∀ x ∈ acc,
      x ∈ l.foldl (fun acc e => e.foldl (fun a p => insKey a p.1) acc) acc := by
  induction l with
  | nil => intro acc x h; exact h
  | cons e rest ih =>
    intro acc x h
    exact ih _ x (rowFold_mono e acc x h)

theorem dictCols_mem (l : List (List (String × Val))) :
    ∀ acc : List String, ∀ e ∈ l, ∀ p ∈ e,
      p.1 ∈ l.foldl (fun acc e => e.foldl (fun a p => insKey a p.1) acc) acc := by
  induction l with
  | nil => intro acc e h; cases h
  | cons e0 rest ih =>
    intro acc e h p hp
    rcases List.mem_cons.mp h with h0 | h1
    · subst h0
      exact dictColsAux_mono rest _ p.1 (rowFold_mem e acc p hp)
    · exact ih _ e h1 p hp

theorem dictCols_sub (l : List (List (String × Val))) :
    ∀ acc : List String,
      ∀ x ∈ l.foldl (fun acc e => e.foldl (fun a p => insKey a p.1) acc) acc,
        x ∈ acc ∨ ∃ e ∈ l, x ∈ e.map Prod.fst := by
  induction l with
  | nil => intro acc x h; exact Or.inl h
  | cons e0 rest ih =>
    intro acc x h
    rcases ih _ x h with h1 | h2
    · rcases rowFold_sub e0 acc x h1 with h3 | h4
      · exact Or.inl h3
      · exact Or.inr ⟨e0, by simp, h4⟩
    · obtain ⟨e, he, hx⟩ := h2
      exact Or.inr ⟨e, by simp [he], hx⟩

theorem dictCols_nodup (l : List (List (String × Val))) : (dictCols l).Nodup := by
  have hgen : ∀ acc : List String, acc.Nodup →
      (l.foldl (fun acc e => e.foldl (fun a p => insKey a p.1) acc) acc).Nodup := by
    induction l with
    | nil => intro acc h; exact h
    | cons e rest ih => intro acc h; exact ih _ (rowFold_nodup e acc h)
  exact hgen [] List.nodup_nil

/-- Folding a plain string list into an ordered union. -/
theorem strFold_mono (cs : List String) :
    ∀ acc : List String, ∀ x ∈ acc, x ∈ cs.foldl insKey acc := by
  induction cs with
  | nil => intro acc x h; exact h
  | cons c rest ih => intro acc x h; exact ih _ x (insKey_mono acc c x h)

theorem strFold_mem (cs : List String) :
    ∀ acc : List String, ∀ x ∈ cs, x ∈ cs.foldl insKey acc := by
  induction cs with
  | nil => intro acc x h; cases h
  | cons c rest ih =>
    intro acc x h
    rcases List.mem_cons.mp h with h0 | h1
    · subst h0
      exact strFold_mono rest _ x (insKey_mem_self acc x)
    · exact ih _ x h1

theorem strFold_sub (cs : List String) :
    ∀ acc : List String, ∀ x ∈ cs.foldl insKey acc, x ∈ acc ∨ x ∈ cs := by
  induction cs with
  | nil => intro acc x h; exact Or.inl h
  | cons c rest ih =>
    intro acc x h
    rcases ih _ x h with h1 | h2
    · rcases insKey_sub acc c x h1 with h3 | h4
      · exact Or.inl h3
      · exact Or.inr (by simp [h4])
    · exact Or.inr (by simp [h2])

theorem strFold_of_disjoint (cs : List String) :
    ∀ acc : List String, cs.Nodup → (∀ x ∈ cs, x ∉ acc) →
      cs.foldl insKey acc = acc ++ cs := by
  induction cs with
  | nil => intro acc _ _; simp
  | cons c rest ih =>
    intro acc hnd hdisj
    have hc : acc.contains c = false := by
      cases hcc : acc.contains c with
      | false => rfl
      | true => exact absurd (contains_mem hcc) (hdisj c (by simp))
    have hstep : insKey acc c = acc ++ [c] := by
      unfold insKey
      rw [if_neg (by rw [hc]; simp)]
    rw [List.foldl_cons, hstep,
      ih (acc ++ [c]) (List.Nodup.of_cons hnd) ?_, List.append_assoc]
    · rfl
    · intro x hx hmem
      rcases List.mem_append.mp hmem with h1 | h2
      · exact hdisj x (by simp [hx]) h1
      · have : x = c := by simpa using h2
        subst this
        exact (List.nodup_cons.mp hnd).1 hx

theorem concatColsAux_mono (dfs : List DF) :
    ∀ acc : List String, ∀ x ∈ acc,
      x ∈ dfs.foldl (fun acc d => d.cols.foldl insKey acc) acc := by
  induction dfs with
  | nil => intro acc x h; exact h
  | cons d rest ih => intro acc x h; exact ih _ x (strFold_mono d.cols acc x h)

theorem concatCols_mem (dfs : List DF) :
    ∀ acc : List String, ∀ d ∈ dfs, ∀ x ∈ d.cols,
      x ∈ dfs.foldl (fun acc d => d.cols.foldl insKey acc) acc := by
  induction dfs with
  | nil => intro acc d h; cases h
  | cons d0 rest ih =>
    intro acc d h x hx
    rcases List.mem_cons.mp h with h0 | h1
    · subst h0
      exact concatColsAux_mono rest _ x (strFold_mem d.cols acc x hx)
    · exact ih _ d h1 x hx

theorem concatCols_sub (dfs : List DF) :
    ∀ acc : List String,
      ∀ x ∈ dfs.foldl (fun acc d => d.cols.foldl insKey acc) acc,
        x ∈ acc ∨ ∃ d ∈ dfs, x ∈ d.cols := by
  induction dfs with
  | nil => intro acc x h; exact Or.inl h
  | cons d0 rest ih =>
    intro acc x h
    rcases ih _ x h with h1 | h2
    · rcases strFold_sub d0.cols acc x h1 with h3 | h4
      · exact Or.inl h3
      · exact Or.inr ⟨d0, by simp, h4⟩
    · obtain ⟨d, hd, hx⟩ := h2
      exact Or.inr ⟨d, by simp [hd], hx⟩

theorem concatCols_single (t : DF) (h : t.cols.Nodup) : concatCols [t] = t.cols := by
  show t.cols.foldl insKey [] = t.cols
  rw [strFold_of_disjoint t.cols [] h (fun x _ hx => by cases hx)]
  rfl

/-! ### Well-formedness and cleaning lemmas -/

theorem Wf_dfOfRecords (l : List (List (String × Val))) : Wf (dfOfRecords l) := by
  intro r hr
  obtain ⟨e, _, rfl⟩ := List.mem_map.mp hr
  exact rebuildRow_keys _ e

theorem Wf_setCol (df : DF) (k : String) (v : Val) (h : Wf df) : Wf (setCol df k v) := by
  intro r hr
  rw [setCol_rows] at hr
  obtain ⟨r0, hr0, rfl⟩ := List.mem_map.mp hr
  rw [setFn_keys df.cols k v r0 (h r0 hr0), setCol_cols]

theorem Wf_concatDF (dfs : List DF) : Wf (concatDF dfs) := by
  intro r hr
  simp only [concatDF, List.mem_flatten, List.mem_map] at hr
  obtain ⟨rr, ⟨d, _, rfl⟩, hr2⟩ := hr
  obtain ⟨r0, _, rfl⟩ := List.mem_map.mp hr2
  exact rebuildRow_keys _ r0

theorem Wf_selectRow (df : DF) (cs : List String) (i : Nat) : Wf (selectRow df cs i) := by
  intro r hr
  rcases List.mem_singleton.mp hr with rfl
  exact rebuildRow_keys _ _

theorem Wf_clean (df : DF) (h : Wf df) : Wf (clean_column_names df) := by
  intro r hr
  obtain ⟨r0, hr0, rfl⟩ := List.mem_map.mp hr
  rw [cleanRow_keys, h r0 hr0]
  rfl

theorem cleanRow_fixed (r : List (String × Val))
    (h : ∀ x ∈ r.map Prod.fst, cleanFree x = true) : cleanRow r = r := by
  apply map_fix
  intro p hp
  have hfix := cleanName_fixed p.1 (h p.1 (List.mem_map_of_mem Prod.fst hp))
  cases p with
  | mk a b =>
    show (cleanName a, b) = (a, b)
    rw [show cleanName a = a from hfix]

theorem clean_fixed (df : DF) (hwf : Wf df)
    (hcf : ∀ c ∈ df.cols, cleanFree c = true) : clean_column_names df = df := by
  apply DF.ext
  · exact map_fix cleanName _ (fun c hc => cleanName_fixed c (hcf c hc))
  · show df.rows.map cleanRow = df.rows
    apply map_fix
    intro r hr
    exact cleanRow_fixed r (fun x hx => hcf x ((hwf r hr) ▸ hx))

theorem setCol_cols_nodup (df : DF) (k : String) (v : Val) (h : df.cols.Nodup) :
    (setCol df k v).cols.Nodup := by
  rw [setCol_cols]
  by_cases hc : df.cols.contains k = true
  · rw [if_pos hc]
    exact h
  · rw [if_neg hc]
    refine List.nodup_append.mpr ⟨h, List.nodup_singleton k, ?_⟩
    intro a ha hak
    have : a = k := by simpa using hak
    subst this
    exact (fun hx => hc (by simpa using hx)) ha

/-! ### The carry loop `addCols` -/

theorem addCols_spec (df : DF) (i : Nat) :
    ∀ (ks : List String) (t t' : DF), addCols df ks i t = .ok t' →
      (∀ k ∈ ks, k ∈ df.cols) ∧
      ∃ F : List (String × Val) → List (String × Val),
        t'.rows = t.rows.map F ∧
        (∀ r, r.map Prod.fst = t.cols →
          (F r).map Prod.fst = t'.cols ∧
          (∀ k'', rowVal (F r) k'' =
            if k'' ∈ ks then cellD df k'' i else rowVal r k'')) ∧
        (∀ x ∈ t'.cols, x ∈ t.cols ∨ x ∈ ks) ∧
        (t.cols.Nodup → t'.cols.Nodup) := by
  intro ks
  induction ks with
  | nil =>
    intro t t' h
    have ht : t' = t := by
      simpa [addCols] using h.symm
    subst ht
    refine ⟨fun k hk => absurd hk (by simp), id, by simp, ?_, fun x hx => Or.inl hx,
      fun h => h⟩
    intro r hkeys
    exact ⟨hkeys, fun k'' => by simp⟩
  | cons k0 rest ih =>
    intro t t' h
    cases hc : df.cols.contains k0 with
    | false =>
      exfalso
      have : addCols df (k0 :: rest) i t = .error (.keyError k0) := by
        simp [addCols, getCellE, contains_not_mem hc]
      rw [this] at h
      cases h
    | true =>
      have hm0 : k0 ∈ df.cols := contains_mem hc
      have hstep : addCols df (k0 :: rest) i t =
          addCols df rest i (setCol t k0 (cellD df k0 i)) := by
        simp [addCols, getCellE, hm0]
      rw [hstep] at h
      obtain ⟨hks, F1, hrows1, hspec1, hsub1, hnd1⟩ := ih (setCol t k0 (cellD df k0 i)) t' h
      refine ⟨?_, F1 ∘ setFn t.cols k0 (cellD df k0 i), ?_, ?_, ?_, ?_⟩
      · intro k hk
        rcases List.mem_cons.mp hk with h0 | h1
        · subst h0
          exact hm0
        · exact hks k h1
      · rw [hrows1, setCol_rows, List.map_map]
      · intro r hkeys
        have hkeys2 : (setFn t.cols k0 (cellD df k0 i) r).map Prod.fst =
            (setCol t k0 (cellD df k0 i)).cols := by
          rw [setFn_keys t.cols k0 _ r hkeys, setCol_cols]
        obtain ⟨hk1, hv1⟩ := hspec1 _ hkeys2
        refine ⟨hk1, ?_⟩
        intro k''
        show rowVal (F1 (setFn t.cols k0 (cellD df k0 i) r)) k'' = _
        rw [hv1 k'']
        by_cases hrest : k'' ∈ rest
        · rw [if_pos hrest, if_pos (by simp [hrest])]
        · rw [if_neg hrest]
          by_cases hk0 : k'' = k0
          · subst hk0
            rw [rowVal_setFn_self _ _ _ _ hkeys, if_pos (by simp)]
          · rw [rowVal_setFn_other _ _ _ _ _ hk0,
              if_neg (by simp [hrest, hk0])]
      · intro x hx
        rcases hsub1 x hx with h1 | h2
        · rcases setCol_cols_sub t k0 _ x h1 with h3 | h4
          · exact Or.inl h3
          · exact Or.inr (by simp [h4])
        · exact Or.inr (by simp [h2])
      · intro hnd
        exact hnd1 (setCol_cols_nodup t k0 _ hnd)

theorem addCols_ok_of_mem (df : DF) (i : Nat) :
    ∀ (ks : List String) (t : DF), (∀ k ∈ ks, k ∈ df.cols) →
      ∃ t', addCols df ks i t = .ok t' := by
  intro ks
  induction ks with
  | nil => intro t _; exact ⟨t, rfl⟩
  | cons k0 rest ih =>
    intro t h
    have hm0 : k0 ∈ df.cols := h k0 (by simp)
    obtain ⟨t', ht'⟩ := ih (setCol t k0 (cellD df k0 i)) (fun k hk => h k (by simp [hk]))
    exact ⟨t', by simp [addCols, getCellE, hm0, ht']⟩

/-! ### Characterizing one expander iteration -/

theorem truthy_vlist_ne_nil {l : List (List (String × Val))}
    (h : truthy (.vlist l) = true) : l ≠ [] := by
  simpa [truthy] using h

theorem elemsLen_of_falsy (v : Val) (h : truthy v = false) : elemsLen v = 0 := by
  cases v with
  | vlist l =>
    have : l = [] := by simpa [truthy] using h
    simp [this, elemsLen, elemsOf]
  | vstr s => rfl
  | vint n => rfl
  | vnull => rfl

theorem processRow_ok_some (df : DF) (c : String) (ks : List String) (i : Nat) (t' : DF)
    (h : processRow df c ks i = .ok (some t')) :
    c ∈ df.cols ∧ ∃ l, cellD df c i = .vlist l ∧ truthy (.vlist l) = true ∧
      addCols df ks i (dfOfRecords l) = .ok t' := by
  cases hc : df.cols.contains c with
  | false =>
    exfalso
    have hbad : processRow df c ks i = .error (.keyError c) := by
      simp [processRow, getCellE, contains_not_mem hc]
    rw [hbad] at h
    cases h
  | true =>
    have hm : c ∈ df.cols := contains_mem hc
    refine ⟨hm, ?_⟩
    cases hv : cellD df c i with
    | vlist l =>
      have hpr : processRow df c ks i =
          (if truthy (Val.vlist l) = true then
            match addCols df ks i (dfOfRecords l) with
            | .error e => .error e
            | .ok t => .ok (some t)
          else .ok none) := by
        simp [processRow, getCellE, hm, hv]
      rw [hpr] at h
      cases ht : truthy (Val.vlist l) with
      | false =>
        rw [if_neg (by simp [ht])] at h
        simp at h
      | true =>
        rw [if_pos ht] at h
        cases ha : addCols df ks i (dfOfRecords l) with
        | error e =>
          rw [ha] at h
          cases h
        | ok t0 =>
          rw [ha] at h
          obtain rfl : t0 = t' := by simpa using h
          exact ⟨l, rfl, ht, ha⟩
    | vstr str =>
      exfalso
      have hpr : processRow df c ks i =
          (if truthy (Val.vstr str) = true then Except.error Err.valueError
           else .ok none) := by
        simp [processRow, getCellE, hm, hv]
      rw [hpr] at h
      cases ht : truthy (Val.vstr str) with
      | false =>
        rw [if_neg (by simp [ht])] at h
        simp at h
      | true =>
        rw [if_pos ht] at h
        cases h
    | vint n =>
      exfalso
      have hpr : processRow df c ks i =
          (if truthy (Val.vint n) = true then Except.error Err.valueError
           else .ok none) := by
        simp [processRow, getCellE, hm, hv]
      rw [hpr] at h
      cases ht : truthy (Val.vint n) with
      | false =>
        rw [if_neg (by simp [ht])] at h
        simp at h
      | true =>
        rw [if_pos ht] at h
        cases h
    | vnull =>
      exfalso
      have hpr : processRow df c ks i = .ok none := by
        simp [processRow, getCellE, hm, hv, truthy]
      rw [hpr] at h
      simp at h

theorem processRow_ok_none (df : DF) (c : String) (ks : List String) (i : Nat)
    (h : processRow df c ks i = .ok none) :
    c ∈ df.cols ∧ truthy (cellD df c i) = false := by
  cases hc : df.cols.contains c with
  | false =>
    exfalso
    have hbad : processRow df c ks i = .error (.keyError c) := by
      simp [processRow, getCellE, contains_not_mem hc]
    rw [hbad] at h
    cases h
  | true =>
    have hm : c ∈ df.cols := contains_mem hc
    refine ⟨hm, ?_⟩
    cases ht : truthy (cellD df c i) with
    | false => rfl
    | true =>
      exfalso
      cases hv : cellD df c i with
      | vlist l =>
        rw [hv] at ht
        have hpr : processRow df c ks i =
            (match addCols df ks i (dfOfRecords l) with
            | .error e => Except.error e
            | .ok t => .ok (some t)) := by
          simp [processRow, getCellE, hm, hv, ht]
        rw [hpr] at h
        cases ha : addCols df ks i (dfOfRecords l) with
        | error e =>
          rw [ha] at h
          cases h
        | ok t0 =>
          rw [ha] at h
          simp at h
      | vstr str =>
        rw [hv] at ht
        have hpr : processRow df c ks i = .error .valueError := by
          simp [processRow, getCellE, hm, hv, ht]
        rw [hpr] at h
        cases h
      | vint n =>
        rw [hv] at ht
        have hpr : processRow df c ks i = .error .valueError := by
          simp [processRow, getCellE, hm, hv, ht]
        rw [hpr] at h
        cases h
      | vnull =>
        rw [hv] at ht
        cases ht

theorem buildSubs_ok (df : DF) (c : String) (ks : List String) :
    ∀ (is : List Nat) (subs : List DF), buildSubs df c ks is = .ok subs →
      subs = is.filterMap (subOf df c ks) ∧
      ∀ i ∈ is, ∃ o, processRow df c ks i = .ok o := by
  intro is
  induction is with
  | nil =>
    intro subs h
    simp [buildSubs] at h
    subst h
    exact ⟨rfl, fun i hi => absurd hi (by simp)⟩
  | cons j js ih =>
    intro subs h
    cases hp : processRow df c ks j with
    | error e =>
      exfalso
      have hbad : buildSubs df c ks (j :: js) = .error e := by
        simp [buildSubs, hp]
      rw [hbad] at h
      cases h
    | ok o =>
      cases o with
      | none =>
        have hrec : buildSubs df c ks js = .ok subs := by
          have hsame : buildSubs df c ks (j :: js) = buildSubs df c ks js := by
            simp [buildSubs, hp]
          rw [← hsame]
          exact h
        obtain ⟨hfm, hall⟩ := ih subs hrec
        constructor
        · rw [List.filterMap_cons]
          have hnone : subOf df c ks j = none := by simp [subOf, hp]
          rw [hnone]
          exact hfm
        · intro i hi
          rcases List.mem_cons.mp hi with h0 | h1
          · subst h0
            exact ⟨none, hp⟩
          · exact hall i h1
      | some t =>
        cases hb : buildSubs df c ks js with
        | error e =>
          exfalso
          have hbad : buildSubs df c ks (j :: js) = .error e := by
            simp [buildSubs, hp, hb]
          rw [hbad] at h
          cases h
        | ok rest =>
          have hsubs : subs = t :: rest := by
            have hok : buildSubs df c ks (j :: js) = .ok (t :: rest) := by
              simp [buildSubs, hp, hb]
            rw [hok] at h
            simpa using h.symm
          subst hsubs
          obtain ⟨hfm, hall⟩ := ih rest hb
          constructor
          · rw [List.filterMap_cons]
            have hsome : subOf df c ks j = some t := by simp [subOf, hp]
            rw [hsome, hfm]
          · intro i hi
            rcases List.mem_cons.mp hi with h0 | h1
            · subst h0
              exact ⟨some t, hp⟩
            · exact hall i h1

theorem mem_elemKeys {v : Val} {e : List (String × Val)} {x : String}
    (he : e ∈ elemsOf v) (hx : x ∈ e.map Prod.fst) : x ∈ elemKeys v := by
  simp only [elemKeys, List.mem_flatten, List.mem_map]
  exact ⟨e.map Prod.fst, ⟨e, he, rfl⟩, hx⟩

theorem processRow_some_spec (df : DF) (c : String) (ks : List String) (i : Nat) (t' : DF)
    (h : processRow df c ks i = .ok (some t')) :
    c ∈ df.cols ∧
    truthy (cellD df c i) = true ∧
    t'.rows.length = elemsLen (cellD df c i) ∧
    Wf t' ∧
    (∀ x ∈ t'.cols, x ∈ elemKeys (cellD df c i) ∨ x ∈ ks) ∧
    (∀ k ∈ ks, t'.rows.map (fun row => rowVal row k) =
      List.replicate (elemsLen (cellD df c i)) (cellD df k i)) ∧
    (∀ k, k ∉ ks → t'.rows.map (fun row => rowVal row k) =
      (elemsOf (cellD df c i)).map (fun e => rowVal e k)) ∧
    (∀ r0 ∈ t'.rows, ∀ k ∈ ks, rowVal r0 k = cellD df k i) := by
  obtain ⟨hm, l, hv, ht, ha⟩ := processRow_ok_some df c ks i t' h
  obtain ⟨hks, F, hrowsF, hspecF, hsubF, _⟩ := addCols_spec df i ks (dfOfRecords l) t' ha
  have hrows : t'.rows = l.map (fun e => F (rebuildRow (dictCols l) e)) := by
    rw [hrowsF]
    show ((l.map (rebuildRow (dictCols l))).map F) = _
    rw [List.map_map]
    rfl
  have hkeys0 : ∀ e : List (String × Val),
      (rebuildRow (dictCols l) e).map Prod.fst = (dfOfRecords l).cols :=
    fun e => rebuildRow_keys _ e
  refine ⟨hm, by rw [hv]; exact ht, ?_, ?_, ?_, ?_, ?_, ?_⟩
  · rw [hrows, List.length_map, hv]
    rfl
  · intro r0 hr0
    rw [hrows] at hr0
    obtain ⟨e, _, rfl⟩ := List.mem_map.mp hr0
    exact (hspecF _ (hkeys0 e)).1
  · intro x hx
    rcases hsubF x hx with h0 | h1
    · left
      rcases dictCols_sub l [] x h0 with h2 | ⟨e, he, hxe⟩
      · cases h2
      · rw [hv]
        exact mem_elemKeys (by simpa [elemsOf] using he) hxe
    · exact Or.inr h1
  · intro k hk
    rw [hrows, List.map_map]
    have hpt : ∀ e ∈ l,
        (((fun row => rowVal row k) ∘ fun e => F (rebuildRow (dictCols l) e)) e) =
          cellD df k i := by
      intro e _
      show rowVal (F (rebuildRow (dictCols l) e)) k = _
      rw [(hspecF _ (hkeys0 e)).2 k, if_pos hk]
    rw [List.map_congr_left hpt, hv]
    exact List.map_const l (cellD df k i)
  · intro k hk
    rw [hrows, List.map_map, hv]
    show _ = l.map fun e => rowVal e k
    apply List.map_congr_left
    intro e he
    show rowVal (F (rebuildRow (dictCols l) e)) k = rowVal e k
    rw [(hspecF _ (hkeys0 e)).2 k, if_neg hk]
    apply rowVal_rebuild_of_keys_sub
    intro x hx
    obtain ⟨p, hp, rfl⟩ := List.mem_map.mp hx
    exact dictCols_mem l [] e he p hp
  · intro r0 hr0 k hk
    rw [hrows] at hr0
    obtain ⟨e, _, rfl⟩ := List.mem_map.mp hr0
    rw [(hspecF _ (hkeys0 e)).2 k, if_pos hk]

/-! ### Concatenation lemmas -/

theorem concatDF_rows_len (subs : List DF) :
    (concatDF subs).rows.length = (subs.map (fun t => t.rows.length)).sum := by
  show ((subs.map (fun d => d.rows.map (rebuildRow (concatCols subs)))).flatten).length = _
  rw [List.length_flatten, List.map_map]
  congr 1
  apply List.map_congr_left
  intro d _
  simp

theorem concatDF_proj (subs : List DF) (k : String) (hwf : ∀ t ∈ subs, Wf t) :
    (concatDF subs).rows.map (fun row => rowVal row k) =
      (subs.map (fun t => t.rows.map (fun row => rowVal row k))).flatten := by
  show ((subs.map (fun d => d.rows.map (rebuildRow (concatCols subs)))).flatten).map _ = _
  rw [List.map_flatten, List.map_map]
  congr 1
  apply List.map_congr_left
  intro d hd
  show (d.rows.map (rebuildRow (concatCols subs))).map (fun row => rowVal row k) = _
  rw [List.map_map]
  apply List.map_congr_left
  intro row hrow
  show rowVal (rebuildRow (concatCols subs) row) k = rowVal row k
  apply rowVal_rebuild_of_keys_sub
  intro x hx
  rw [hwf d hd row hrow] at hx
  exact concatCols_mem subs [] d hd x hx

theorem concatDF_mem (subs : List DF) (row : List (String × Val))
    (h : row ∈ (concatDF subs).rows) :
    ∃ t ∈ subs, ∃ r0 ∈ t.rows, row = rebuildRow (concatCols subs) r0 := by
  simp only [concatDF, List.mem_flatten, List.mem_map] at h
  obtain ⟨rr, ⟨d, hd, rfl⟩, hrow⟩ := h
  obtain ⟨r0, hr0, rfl⟩ := List.mem_map.mp hrow
  exact ⟨d, hd, r0, hr0, rfl⟩

theorem filterMap_map_flatten {α β γ : Type} (l : List α) (f : α → Option β)
    (g : β → List γ) :
    ((l.filterMap f).map g).flatten =
      (l.map (fun a => match f a with | some b => g b | none => [])).flatten := by
  induction l with
  | nil => rfl
  | cons a rest ih =>
    rw [List.filterMap_cons]
    cases hf : f a with
    | none =>
      simp only [List.map_cons, List.flatten_cons, hf]
      rw [ih]
      simp
    | some b =>
      simp only [List.map_cons, List.flatten_cons, hf]
      rw [ih]

theorem filterMap_map_sum {α β : Type} (l : List α) (f : α → Option β) (g : β → Nat) :
    ((l.filterMap f).map g).sum =
      (l.map (fun a => match f a with | some b => g b | none => 0)).sum := by
  induction l with
  | nil => rfl
  | cons a rest ih =>
    rw [List.filterMap_cons]
    cases hf : f a with
    | none =>
      simp only [List.map_cons, List.sum_cons, hf]
      rw [ih]
      simp
    | some b =>
      simp only [List.map_cons, List.sum_cons, hf]
      rw [ih]

/-! ### The expander as a whole -/

theorem extract_ok_cases (df : DF) (c : String) (ks : List String) (r : DF)
    (hok : extract_list_to_dataframe df c ks = .ok r) :
    ∃ subs, buildSubs df c ks (List.range df.rows.length) = .ok subs ∧
      ((subs = [] ∧ r = ⟨[], []⟩) ∨
       (subs ≠ [] ∧ r = clean_column_names (concatDF subs))) := by
  unfold extract_list_to_dataframe at hok
  cases hb : buildSubs df c ks (List.range df.rows.length) with
  | error e =>
    rw [hb] at hok
    cases hok
  | ok subs =>
    rw [hb] at hok
    refine ⟨subs, rfl, ?_⟩
    cases subs with
    | nil =>
      left
      exact ⟨rfl, by simpa using hok.symm⟩
    | cons s ss =>
      right
      refine ⟨by simp, ?_⟩
      simpa using hok.symm

theorem subOf_eq_some (df : DF) (c : String) (ks : List String) (i : Nat) (t : DF)
    (h : subOf df c ks i = some t) : processRow df c ks i = .ok (some t) := by
  unfold subOf at h
  cases hp : processRow df c ks i with
  | error e =>
    rw [hp] at h
    cases h
  | ok o =>
    rw [hp] at h
    have ho : o = some t := h
    rw [ho]

theorem extract_subs_clean (df : DF) (c : String) (ks : List String) (subs : List DF)
    (hsubs : ∀ t ∈ subs, ∃ i, i < df.rows.length ∧ subOf df c ks i = some t)
    (hksf : ∀ k ∈ ks, cleanFree k = true)
    (helems : ∀ i, i < df.rows.length →
      ∀ x ∈ elemKeys (cellD df c i), cleanFree x = true) :
    clean_column_names (concatDF subs) = concatDF subs := by
  apply clean_fixed _ (Wf_concatDF subs)
  intro x hx
  rcases concatCols_sub subs [] x hx with h0 | ⟨d, hd, hxd⟩
  · cases h0
  · obtain ⟨i, hi, hsome⟩ := hsubs d hd
    have hspec := processRow_some_spec df c ks i d (subOf_eq_some df c ks i d hsome)
    rcases hspec.2.2.2.2.1 x hxd with h1 | h2
    · exact helems i hi x h1
    · exact hksf x h2

theorem extract_proj_spec (df : DF) (c : String) (ks : List String) (r : DF)
    (hok : extract_list_to_dataframe df c ks = .ok r)
    (hksf : ∀ k ∈ ks, cleanFree k = true)
    (helems : ∀ i, i < df.rows.length →
      ∀ x ∈ elemKeys (cellD df c i), cleanFree x = true) :
    r.rows.length =
      ((List.range df.rows.length).map (fun i => elemsLen (cellD df c i))).sum ∧
    ∀ k ∈ ks, r.rows.map (fun row => rowVal row k) =
      ((List.range df.rows.length).map
        (fun i => List.replicate (elemsLen (cellD df c i)) (cellD df k i))).flatten := by
  obtain ⟨subs, hb, hcases⟩ := extract_ok_cases df c ks r hok
  obtain ⟨hfm, hall⟩ := buildSubs_ok df c ks _ subs hb
  have hnone_len : ∀ i, i < df.rows.length → subOf df c ks i = none →
      elemsLen (cellD df c i) = 0 := by
    intro i hi h0
    obtain ⟨o, ho⟩ := hall i (List.mem_range.mpr hi)
    cases o with
    | some t =>
      exfalso
      have : subOf df c ks i = some t := by simp [subOf, ho]
      rw [this] at h0
      cases h0
    | none => exact elemsLen_of_falsy _ (processRow_ok_none df c ks i ho).2
  rcases hcases with ⟨hnil, hr⟩ | ⟨hne, hr⟩
  · subst hnil
    subst hr
    have hallnone : ∀ i ∈ List.range df.rows.length, subOf df c ks i = none :=
      (List.filterMap_eq_nil_iff.mp hfm.symm)
    constructor
    · symm
      apply List.sum_eq_zero
      intro x hx
      obtain ⟨i, hi, rfl⟩ := List.mem_map.mp hx
      exact hnone_len i (List.mem_range.mp hi) (hallnone i hi)
    · intro k _
      symm
      show _ = ([] : List Val)
      rw [List.flatten_eq_nil_iff]
      intro xs hxs
      obtain ⟨i, hi, rfl⟩ := List.mem_map.mp hxs
      rw [hnone_len i (List.mem_range.mp hi) (hallnone i hi)]
      rfl
  · have hsubs : ∀ t ∈ subs, ∃ i, i < df.rows.length ∧ subOf df c ks i = some t := by
      intro t ht
      rw [hfm] at ht
      obtain ⟨i, hi, hsome⟩ := List.mem_filterMap.mp ht
      exact ⟨i, List.mem_range.mp hi, hsome⟩
    have hwfs : ∀ t ∈ subs, Wf t := by
      intro t ht
      obtain ⟨i, _, hsome⟩ := hsubs t ht
      exact (processRow_some_spec df c ks i t (subOf_eq_some df c ks i t hsome)).2.2.2.1
    rw [hr, extract_subs_clean df c ks subs hsubs hksf helems]
    constructor
    · rw [concatDF_rows_len, hfm, filterMap_map_sum]
      apply congrArg List.sum
      apply List.map_congr_left
      intro i hi
      cases hso : subOf df c ks i with
      | some t =>
        have hspec := processRow_some_spec df c ks i t (subOf_eq_some df c ks i t hso)
        simpa using hspec.2.2.1
      | none =>
        rw [hnone_len i (List.mem_range.mp hi) hso]
    · intro k hk
      rw [concatDF_proj subs k hwfs, hfm, filterMap_map_flatten]
      apply congrArg List.flatten
      apply List.map_congr_left
      intro i hi
      cases hso : subOf df c ks i with
      | some t =>
        have hspec := processRow_some_spec df c ks i t (subOf_eq_some df c ks i t hso)
        simpa using hspec.2.2.2.2.2.1 k hk
      | none =>
        rw [hnone_len i (List.mem_range.mp hi) hso]
        rfl

theorem extract_mem_spec (df : DF) (c : String) (ks : List String) (r : DF)
    (hok : extract_list_to_dataframe df c ks = .ok r)
    (hksf : ∀ k ∈ ks, cleanFree k = true)
    (helems : ∀ i, i < df.rows.length →
      ∀ x ∈ elemKeys (cellD df c i), cleanFree x = true) :
    ∀ row ∈ r.rows, ∃ i, i < df.rows.length ∧ truthy (cellD df c i) = true ∧
      ∀ k ∈ ks, rowVal row k = cellD df k i := by
  obtain ⟨subs, hb, hcases⟩ := extract_ok_cases df c ks r hok
  obtain ⟨hfm, hall⟩ := buildSubs_ok df c ks _ subs hb
  rcases hcases with ⟨hnil, hr⟩ | ⟨hne, hr⟩
  · subst hr
    intro row hrow
    cases hrow
  · have hsubs : ∀ t ∈ subs, ∃ i, i < df.rows.length ∧ subOf df c ks i = some t := by
      intro t ht
      rw [hfm] at ht
      obtain ⟨i, hi, hsome⟩ := List.mem_filterMap.mp ht
      exact ⟨i, List.mem_range.mp hi, hsome⟩
    have hwfs : ∀ t ∈ subs, Wf t := by
      intro t ht
      obtain ⟨i, _, hsome⟩ := hsubs t ht
      exact (processRow_some_spec df c ks i t (subOf_eq_some df c ks i t hsome)).2.2.2.1
    rw [hr, extract_subs_clean df c ks subs hsubs hksf helems]
    intro row hrow
    obtain ⟨t, ht, r0, hr0, rfl⟩ := concatDF_mem subs row hrow
    obtain ⟨i, hi, hsome⟩ := hsubs t ht
    have hspec := processRow_some_spec df c ks i t (subOf_eq_some df c ks i t hsome)
    refine ⟨i, hi, hspec.2.1, ?_⟩
    intro k hk
    have hrv : rowVal (rebuildRow (concatCols subs) r0) k = rowVal r0 k := by
      apply rowVal_rebuild_of_keys_sub
      intro x hx
      rw [hwfs t ht r0 hr0] at hx
      exact concatCols_mem subs [] t ht x hx
    rw [hrv]
    exact hspec.2.2.2.2.2.2.2 r0 hr0 k hk

theorem extract_proj_noncarry (df : DF) (c : String) (ks : List String) (r : DF)
    (hok : extract_list_to_dataframe df c ks = .ok r)
    (hksf : ∀ k ∈ ks, cleanFree k = true)
    (helems : ∀ i, i < df.rows.length →
      ∀ x ∈ elemKeys (cellD df c i), cleanFree x = true) :
    ∀ k, k ∉ ks → r.rows.map (fun row => rowVal row k) =
      ((List.range df.rows.length).map
        (fun i => (elemsOf (cellD df c i)).map (fun e => rowVal e k))).flatten := by
  obtain ⟨subs, hb, hcases⟩ := extract_ok_cases df c ks r hok
  obtain ⟨hfm, hall⟩ := buildSubs_ok df c ks _ subs hb
  have hnone_elems : ∀ i, i < df.rows.length → subOf df c ks i = none →
      elemsOf (cellD df c i) = [] := by
    intro i hi h0
    obtain ⟨o, ho⟩ := hall i (List.mem_range.mpr hi)
    cases o with
    | some t =>
      exfalso
      have : subOf df c ks i = some t := by simp [subOf, ho]
      rw [this] at h0
      cases h0
    | none =>
      have hf := (processRow_ok_none df c ks i ho).2
      have := elemsLen_of_falsy _ hf
      simpa [elemsLen] using this
  rcases hcases with ⟨hnil, hr⟩ | ⟨hne, hr⟩
  · subst hnil
    subst hr
    intro k _
    have hallnone : ∀ i ∈ List.range df.rows.length, subOf df c ks i = none :=
      (List.filterMap_eq_nil_iff.mp hfm.symm)
    symm
    show _ = ([] : List Val)
    rw [List.flatten_eq_nil_iff]
    intro xs hxs
    obtain ⟨i, hi, rfl⟩ := List.mem_map.mp hxs
    rw [hnone_elems i (List.mem_range.mp hi) (hallnone i hi)]
    rfl
  · have hsubs : ∀ t ∈ subs, ∃ i, i < df.rows.length ∧ subOf df c ks i = some t := by
      intro t ht
      rw [hfm] at ht
      obtain ⟨i, hi, hsome⟩ := List.mem_filterMap.mp ht
      exact ⟨i, List.mem_range.mp hi, hsome⟩
    have hwfs : ∀ t ∈ subs, Wf t := by
      intro t ht
      obtain ⟨i, _, hsome⟩ := hsubs t ht
      exact (processRow_some_spec df c ks i t (subOf_eq_some df c ks i t hsome)).2.2.2.1
    intro k hk
    rw [hr, extract_subs_clean df c ks subs hsubs hksf helems,
      concatDF_proj subs k hwfs, hfm, filterMap_map_flatten]
    apply congrArg List.flatten
    apply List.map_congr_left
    intro i hi
    cases hso : subOf df c ks i with
    | some t =>
      have hspec := processRow_some_spec df c ks i t (subOf_eq_some df c ks i t hso)
      simpa using hspec.2.2.2.2.2.2.1 k hk
    | none =>
      rw [hnone_elems i (List.mem_range.mp hi) hso]
      rfl

/-- C3: the List Expander emits, for each row, one output row per
array element when the cell is a non-empty array and nothing when the
cell is empty, concatenating the per-row sub-tables in source row order:
the result has `Σᵢ |array i|` rows, every carry column's value sequence
is, in order, each parent row's value repeated once per element, and
every non-carry column's value sequence is the elements' own values in
original element order. -/
theorem c3_expander_row_order (df : DF) (c : String) (ks : List String) (r : DF)
    (hok : extract_list_to_dataframe df c ks = .ok r)
    (hksf : ∀ k ∈ ks, cleanFree k = true)
    (helems : ∀ i, i < df.rows.length →
      ∀ x ∈ elemKeys (cellD df c i), cleanFree x = true) :
    r.rows.length =
      ((List.range df.rows.length).map (fun i => elemsLen (cellD df c i))).sum ∧
    (∀ k ∈ ks, r.rows.map (fun row => rowVal row k) =
      ((List.range df.rows.length).map
        (fun i => List.replicate (elemsLen (cellD df c i)) (cellD df k i))).flatten) ∧
    (∀ k, k ∉ ks → r.rows.map (fun row => rowVal row k) =
      ((List.range df.rows.length).map
        (fun i => (elemsOf (cellD df c i)).map (fun e => rowVal e k))).flatten) :=
  ⟨(extract_proj_spec df c ks r hok hksf helems).1,
   (extract_proj_spec df c ks r hok hksf helems).2,
   extract_proj_noncarry df c ks r hok hksf helems⟩

/-- Witness for C3: expanding `c3df` yields exactly two rows, both
carrying row 0's FK value, in original array order. -/
theorem c3_expander_row_order_witness :
    extract_list_to_dataframe c3df "arr" ["fk"] = .ok c3out ∧
    (∀ k ∈ ["fk"], cleanFree k = true) ∧
    (∀ i, i < c3df.rows.length →
      ∀ x ∈ elemKeys (cellD c3df "arr" i), cleanFree x = true) ∧
    c3out.rows.length = 2 ∧
    rowVal (nthRow c3out 0) "fk" = .vstr "u" ∧
    rowVal (nthRow c3out 1) "fk" = .vstr "u" ∧
    rowVal (nthRow c3out 0) "a" = .vint 1 ∧
    rowVal (nthRow c3out 1) "a" = .vint 2 ∧
    (c3out.rows.length =
      ((List.range c3df.rows.length).map (fun i => elemsLen (cellD c3df "arr" i))).sum ∧
     (∀ k ∈ ["fk"], c3out.rows.map (fun row => rowVal row k) =
       ((List.range c3df.rows.length).map
         (fun i => List.replicate (elemsLen (cellD c3df "arr" i))
           (cellD c3df k i))).flatten) ∧
     (∀ k, k ∉ ["fk"] → c3out.rows.map (fun row => rowVal row k) =
       ((List.range c3df.rows.length).map
         (fun i => (elemsOf (cellD c3df "arr" i)).map (fun e => rowVal e k))).flatten)) :=
  ⟨rfl, by decide, by decide, rfl, rfl, rfl, rfl, rfl,
   c3_expander_row_order c3df "arr" ["fk"] c3out rfl (by decide) (by decide)⟩

/-! ### Characterizing one reconciler iteration -/

theorem processRowH_ok_cases (df : DF) (matching : List String) (i : Nat) (t' : DF)
    (h : processRowH df matching i = .ok t') :
    "riwayat_fasilitas" ∈ df.cols ∧
    ((∃ l, cellD df "riwayat_fasilitas" i = .vlist l ∧ truthy (.vlist l) = true ∧
        addCols df colsToAddH i (dfOfRecords l) = .ok t') ∨
     (truthy (cellD df "riwayat_fasilitas" i) = false ∧
      "tunggakan_pokok" ∈ df.cols ∧
      ∃ b, valGtZero (cellD df "tunggakan_pokok" i) = .ok b ∧
        addCols df colsToAddH i
          (setCol (setCol (selectRow df matching i) "snapshot_order" (.vint 1))
            "status_tunggakan" (.vint (if b then 1 else 0))) = .ok t')) := by
  cases hc : df.cols.contains "riwayat_fasilitas" with
  | false =>
    exfalso
    have hbad : processRowH df matching i = .error (.keyError "riwayat_fasilitas") := by
      simp [processRowH, getCellE, contains_not_mem hc]
    rw [hbad] at h
    cases h
  | true =>
    have hm : "riwayat_fasilitas" ∈ df.cols := contains_mem hc
    refine ⟨hm, ?_⟩
    by_cases ht : truthy (cellD df "riwayat_fasilitas" i) = true
    · left
      cases hv : cellD df "riwayat_fasilitas" i with
      | vlist l =>
        rw [hv] at ht
        have hpr : processRowH df matching i = addCols df colsToAddH i (dfOfRecords l) := by
          simp [processRowH, getCellE, hm, hv, ht]
        rw [hpr] at h
        exact ⟨l, rfl, ht, h⟩
      | vstr str =>
        exfalso
        rw [hv] at ht
        have hpr : processRowH df matching i = .error .valueError := by
          simp [processRowH, getCellE, hm, hv, ht]
        rw [hpr] at h
        cases h
      | vint n =>
        exfalso
        rw [hv] at ht
        have hpr : processRowH df matching i = .error .valueError := by
          simp [processRowH, getCellE, hm, hv, ht]
        rw [hpr] at h
        cases h
      | vnull =>
        exfalso
        rw [hv] at ht
        cases ht
    · right
      have ht' : truthy (cellD df "riwayat_fasilitas" i) = false := by
        simpa using ht
      refine ⟨ht', ?_⟩
      cases hc2 : df.cols.contains "tunggakan_pokok" with
      | false =>
        exfalso
        have hbad : processRowH df matching i = .error (.keyError "tunggakan_pokok") := by
          simp [processRowH, getCellE, hm, ht', contains_not_mem hc2]
        rw [hbad] at h
        cases h
      | true =>
        have hm2 : "tunggakan_pokok" ∈ df.cols := contains_mem hc2
        refine ⟨hm2, ?_⟩
        cases hg : valGtZero (cellD df "tunggakan_pokok" i) with
        | error e =>
          exfalso
          have hbad : processRowH df matching i = .error e := by
            simp [processRowH, getCellE, hm, hm2, ht', hg]
          rw [hbad] at h
          cases h
        | ok b =>
          refine ⟨b, rfl, ?_⟩
          have hpr : processRowH df matching i =
              addCols df colsToAddH i
                (setCol (setCol (selectRow df matching i) "snapshot_order" (.vint 1))
                  "status_tunggakan" (.vint (if b then 1 else 0))) := by
            simp [processRowH, getCellE, hm, hm2, ht', hg]
          rw [hpr] at h
          exact h

theorem buildSubsH_ok (df : DF) (matching : List String) :
    ∀ (is : List Nat) (subs : List DF), buildSubsH df matching is = .ok subs →
      subs = is.filterMap (subHOf df matching) ∧
      ∀ i ∈ is, ∃ t, processRowH df matching i = .ok t := by
  intro is
  induction is with
  | nil =>
    intro subs h
    simp [buildSubsH] at h
    subst h
    exact ⟨rfl, fun i hi => absurd hi (by simp)⟩
  | cons j js ih =>
    intro subs h
    cases hp : processRowH df matching j with
    | error e =>
      exfalso
      have hbad : buildSubsH df matching (j :: js) = .error e := by
        simp [buildSubsH, hp]
      rw [hbad] at h
      cases h
    | ok t =>
      cases hb : buildSubsH df matching js with
      | error e =>
        exfalso
        have hbad : buildSubsH df matching (j :: js) = .error e := by
          simp [buildSubsH, hp, hb]
        rw [hbad] at h
        cases h
      | ok rest =>
        have hsubs : subs = t :: rest := by
          have hok2 : buildSubsH df matching (j :: js) = .ok (t :: rest) := by
            simp [buildSubsH, hp, hb]
          rw [hok2] at h
          simpa using h.symm
        subst hsubs
        obtain ⟨hfm, hall⟩ := ih rest hb
        constructor
        · rw [List.filterMap_cons]
          have hsome : subHOf df matching j = some t := by simp [subHOf, hp]
          rw [hsome, hfm]
        · intro i hi
          rcases List.mem_cons.mp hi with h0 | h1
          · subst h0
            exact ⟨t, hp⟩
          · exact hall i h1

theorem subHOf_eq_some (df : DF) (matching : List String) (i : Nat) (t : DF)
    (h : subHOf df matching i = some t) : processRowH df matching i = .ok t := by
  unfold subHOf at h
  cases hp : processRowH df matching i with
  | error e =>
    rw [hp] at h
    cases h
  | ok t0 =>
    rw [hp] at h
    have ht0 : some t0 = some t := h
    cases ht0
    rfl

theorem computeMatching_sub (cols : List String) (sk : Option (List String))
    (matching : List String) (h : computeMatching cols sk = .ok matching) :
    ∀ m ∈ matching, m ∈ cols := by
  cases sk with
  | some sk0 =>
    have hm : matching = cols.filter (fun c => sk0.contains c) := by
      simpa [computeMatching] using h.symm
    subst hm
    intro m hm2
    exact List.mem_of_mem_filter hm2
  | none =>
    cases hcols : cols.isEmpty with
    | true =>
      have hnil : cols = [] := by simpa using hcols
      have hm : matching = [] := by
        subst hnil
        simpa [computeMatching] using h.symm
      subst hm
      intro m hm2
      cases hm2
    | false =>
      exfalso
      have hbad : computeMatching cols none = .error .typeError := by
        simp [computeMatching, hcols]
      rw [hbad] at h
      cases h

theorem hist_ok_struct (df : DF) (r : DF)
    (hok : extract_facilities_history df = .ok r) :
    ∃ sk matching subs,
      "riwayat_fasilitas" ∈ df.cols ∧
      findSampleKeys (df.rows.map (fun row => rowVal row "riwayat_fasilitas")) = .ok sk ∧
      computeMatching df.cols sk = .ok matching ∧
      buildSubsH df matching (List.range df.rows.length) = .ok subs ∧
      subs ≠ [] ∧
      r = clean_column_names (concatDF subs) := by
  cases hc : df.cols.contains "riwayat_fasilitas" with
  | false =>
    exfalso
    have hbad : extract_facilities_history df = .error (.keyError "riwayat_fasilitas") := by
      simp [extract_facilities_history, getColE, contains_not_mem hc]
    rw [hbad] at hok
    cases hok
  | true =>
    have hm : "riwayat_fasilitas" ∈ df.cols := contains_mem hc
    cases hsk : findSampleKeys (df.rows.map (fun row => rowVal row "riwayat_fasilitas")) with
    | error e =>
      exfalso
      have hbad : extract_facilities_history df = .error e := by
        simp [extract_facilities_history, getColE, hm, hsk]
      rw [hbad] at hok
      cases hok
    | ok sk =>
      cases hcm : computeMatching df.cols sk with
      | error e =>
        exfalso
        have hbad : extract_facilities_history df = .error e := by
          simp [extract_facilities_history, getColE, hm, hsk, hcm]
        rw [hbad] at hok
        cases hok
      | ok matching =>
        cases hb : buildSubsH df matching (List.range df.rows.length) with
        | error e =>
          exfalso
          have hbad : extract_facilities_history df = .error e := by
            simp [extract_facilities_history, getColE, hm, hsk, hcm, hb]
          rw [hbad] at hok
          cases hok
        | ok subs =>
          cases subs with
          | nil =>
            exfalso
            have hbad : extract_facilities_history df = .error .valueError := by
              simp [extract_facilities_history, getColE, hm, hsk, hcm, hb]
            rw [hbad] at hok
            cases hok
          | cons s ss =>
            have hgood : extract_facilities_history df =
                .ok (clean_column_names (concatDF (s :: ss))) := by
              simp [extract_facilities_history, getColE, hm, hsk, hcm, hb]
            rw [hgood] at hok
            exact ⟨sk, matching, s :: ss, hm, rfl, hcm, hb, by simp,
              by simpa using hok.symm⟩

theorem statusVal_of_gtZero (v : Val) (b : Bool) (hg : valGtZero v = .ok b) :
    Val.vint (if b then 1 else 0) = statusVal v := by
  cases v with
  | vint t =>
    have hb : decide (0 < t) = b := by
      have h2 : Except.ok (ε := Err) (decide (0 < t)) = .ok b := by
        simpa [valGtZero] using hg
      simpa using h2
    subst hb
    show Val.vint (if decide (0 < t) = true then 1 else 0) = Val.vint (if 0 < t then 1 else 0)
    by_cases hp : 0 < t
    · rw [if_pos (by simpa using hp), if_pos hp]
    · rw [if_neg (by simpa using hp), if_neg hp]
  | vnull =>
    have hb : false = b := by
      have h2 : Except.ok (ε := Err) false = .ok b := by
        simpa [valGtZero] using hg
      simpa using h2
    subst hb
    rfl
  | vstr str =>
    exfalso
    have h2 : Except.error (α := Bool) Err.typeError = .ok b := by
      simp only [valGtZero] at hg
      exact hg
    cases h2
  | vlist l =>
    exfalso
    have h2 : Except.error (α := Bool) Err.typeError = .ok b := by
      simp only [valGtZero] at hg
      exact hg
    cases h2

theorem processRowH_spec (df : DF) (matching : List String) (i : Nat) (t' : DF)
    (h : processRowH df matching i = .ok t') :
    t'.rows.length = emitLenH df i ∧
    Wf t' ∧
    (∀ x ∈ t'.cols, x ∈ elemKeys (cellD df "riwayat_fasilitas" i) ∨ x ∈ matching ∨
      x = "snapshot_order" ∨ x = "status_tunggakan" ∨ x ∈ colsToAddH) ∧
    (∀ r0 ∈ t'.rows, ∀ k ∈ colsToAddH, rowVal r0 k = cellD df k i) ∧
    (∀ k ∈ colsToAddH, t'.rows.map (fun row => rowVal row k) =
      List.replicate (emitLenH df i) (cellD df k i)) ∧
    (t'.rows.map (fun row => rowVal row "snapshot_order") =
      (if truthy (cellD df "riwayat_fasilitas" i) then
        (elemsOf (cellD df "riwayat_fasilitas" i)).map
          (fun e => rowVal e "snapshot_order")
      else [Val.vint 1])) ∧
    (t'.rows.map (fun row => rowVal row "status_tunggakan") =
      (if truthy (cellD df "riwayat_fasilitas" i) then
        (elemsOf (cellD df "riwayat_fasilitas" i)).map
          (fun e => rowVal e "status_tunggakan")
      else [statusVal (cellD df "tunggakan_pokok" i)])) ∧
    (∀ m ∈ matching, m ∉ colsToAddH → m ≠ "snapshot_order" → m ≠ "status_tunggakan" →
      t'.rows.map (fun row => rowVal row m) =
        (if truthy (cellD df "riwayat_fasilitas" i) then
          (elemsOf (cellD df "riwayat_fasilitas" i)).map (fun e => rowVal e m)
        else [cellD df m i])) := by
  obtain ⟨hm, hcases⟩ := processRowH_ok_cases df matching i t' h
  have hsnap_nc : "snapshot_order" ∉ colsToAddH := by decide
  have hstat_nc : "status_tunggakan" ∉ colsToAddH := by decide
  have hsnap_ne : ("snapshot_order" : String) ≠ "status_tunggakan" := by decide
  rcases hcases with ⟨l, hv, ht, ha⟩ | ⟨ht, hm2, b, hg, ha⟩
  · -- non-empty history: same as the generic expander with the fixed carry set
    have htr : truthy (cellD df "riwayat_fasilitas" i) = true := by rw [hv]; exact ht
    have hemit : emitLenH df i = elemsLen (cellD df "riwayat_fasilitas" i) := by
      unfold emitLenH
      rw [if_pos htr]
    have hpr : processRow df "riwayat_fasilitas" colsToAddH i = .ok (some t') := by
      simp [processRow, getCellE, hm, hv, ht, ha]
    have hspec := processRow_some_spec df "riwayat_fasilitas" colsToAddH i t' hpr
    refine ⟨by rw [hemit]; exact hspec.2.2.1, hspec.2.2.2.1, ?_, hspec.2.2.2.2.2.2.2, ?_,
      ?_, ?_, ?_⟩
    · intro x hx
      rcases hspec.2.2.2.2.1 x hx with h1 | h2
      · exact Or.inl h1
      · exact Or.inr (Or.inr (Or.inr (Or.inr h2)))
    · intro k hk
      rw [hemit]
      exact hspec.2.2.2.2.2.1 k hk
    · rw [if_pos htr]
      exact hspec.2.2.2.2.2.2.1 "snapshot_order" hsnap_nc
    · rw [if_pos htr]
      exact hspec.2.2.2.2.2.2.1 "status_tunggakan" hstat_nc
    · intro m _ hmnc _ _
      rw [if_pos htr]
      exact hspec.2.2.2.2.2.2.1 m hmnc
  · -- empty history: the synthesized single row
    have hemit : emitLenH df i = 1 := by
      unfold emitLenH
      rw [if_neg (by simp [ht])]
    obtain ⟨hks, F, hrowsF, hspecF, hsubF, _⟩ :=
      addCols_spec df i colsToAddH
        (setCol (setCol (selectRow df matching i) "snapshot_order" (.vint 1))
          "status_tunggakan" (.vint (if b then 1 else 0))) t' ha
    set b0 : List (String × Val) := rebuildRow matching (nthRow df i) with hb0
    set base : DF := selectRow df matching i with hbase
    set b1 : DF := setCol base "snapshot_order" (.vint 1) with hb1
    set b2 : DF := setCol b1 "status_tunggakan" (.vint (if b then 1 else 0)) with hb2
    set r1 : List (String × Val) := setFn base.cols "snapshot_order" (.vint 1) b0 with hr1
    set r2 : List (String × Val) :=
      setFn b1.cols "status_tunggakan" (.vint (if b then 1 else 0)) r1 with hr2
    have hb0keys : b0.map Prod.fst = base.cols := rebuildRow_keys _ _
    have hb1rows : b1.rows = [r1] := by
      rw [hb1, setCol_rows]
      rfl
    have hb2rows : b2.rows = [r2] := by
      rw [hb2, setCol_rows, hb1rows]
      rfl
    have hwfb1 : Wf b1 := Wf_setCol base _ _ (Wf_selectRow df matching i)
    have hwfb2 : Wf b2 := Wf_setCol b1 _ _ hwfb1
    have hr1keys : r1.map Prod.fst = b1.cols := hwfb1 r1 (by rw [hb1rows]; simp)
    have hr2keys : r2.map Prod.fst = b2.cols := hwfb2 r2 (by rw [hb2rows]; simp)
    have hrows : t'.rows = [F r2] := by
      rw [hrowsF, hb2rows]
      rfl
    have hFkeys : (F r2).map Prod.fst = t'.cols := (hspecF r2 hr2keys).1
    have hFval : ∀ k'', rowVal (F r2) k'' =
        if k'' ∈ colsToAddH then cellD df k'' i else rowVal r2 k'' :=
      (hspecF r2 hr2keys).2
    have hr2snap : rowVal r2 "snapshot_order" = .vint 1 := by
      rw [hr2, rowVal_setFn_other _ _ _ _ _ hsnap_ne, hr1,
        rowVal_setFn_self _ _ _ _ hb0keys]
    have hr2stat : rowVal r2 "status_tunggakan" = .vint (if b then 1 else 0) := by
      rw [hr2, rowVal_setFn_self _ _ _ _ hr1keys]
    have hr2m : ∀ m ∈ matching, m ≠ "snapshot_order" → m ≠ "status_tunggakan" →
        rowVal r2 m = cellD df m i := by
      intro m hmm hne1 hne2
      rw [hr2, rowVal_setFn_other _ _ _ _ _ hne2, hr1,
        rowVal_setFn_other _ _ _ _ _ hne1, hb0, rowVal_rebuild, if_pos hmm]
      rfl
    refine ⟨?_, ?_, ?_, ?_, ?_, ?_, ?_, ?_⟩
    · rw [hrows, hemit]
      rfl
    · intro r0 hr0
      rw [hrows] at hr0
      rcases List.mem_singleton.mp hr0 with rfl
      exact hFkeys
    · intro x hx
      rcases hsubF x hx with h1 | h2
      · rcases setCol_cols_sub b1 _ _ x h1 with h3 | h4
        · rcases setCol_cols_sub base _ _ x h3 with h5 | h6
          · exact Or.inr (Or.inl h5)
          · exact Or.inr (Or.inr (Or.inl h6))
        · exact Or.inr (Or.inr (Or.inr (Or.inl h4)))
      · exact Or.inr (Or.inr (Or.inr (Or.inr h2)))
    · intro r0 hr0 k hk
      rw [hrows] at hr0
      rcases List.mem_singleton.mp hr0 with rfl
      rw [hFval k, if_pos hk]
    · intro k hk
      rw [hrows, hemit]
      show [rowVal (F r2) k] = [cellD df k i]
      rw [hFval k, if_pos hk]
    · rw [hrows, if_neg (by simp [ht])]
      show [rowVal (F r2) "snapshot_order"] = [Val.vint 1]
      rw [hFval _, if_neg hsnap_nc, hr2snap]
    · rw [hrows, if_neg (by simp [ht])]
      show [rowVal (F r2) "status_tunggakan"] = [statusVal (cellD df "tunggakan_pokok" i)]
      rw [hFval _, if_neg hstat_nc, hr2stat,
        statusVal_of_gtZero (cellD df "tunggakan_pokok" i) b hg]
    · intro m hmm hmnc hne1 hne2
      rw [hrows, if_neg (by simp [ht])]
      show [rowVal (F r2) m] = [cellD df m i]
      rw [hFval m, if_neg hmnc, hr2m m hmm hne1 hne2]

theorem hist_subs_clean (df : DF) (matching : List String) (subs : List DF)
    (hsubs : ∀ t ∈ subs, ∃ i, i < df.rows.length ∧ subHOf df matching i = some t)
    (hcf : ∀ c ∈ df.cols, cleanFree c = true)
    (hmsub : ∀ m ∈ matching, m ∈ df.cols)
    (helems : ∀ i, i < df.rows.length →
      ∀ x ∈ elemKeys (cellD df "riwayat_fasilitas" i), cleanFree x = true) :
    clean_column_names (concatDF subs) = concatDF subs := by
  apply clean_fixed _ (Wf_concatDF subs)
  intro x hx
  rcases concatCols_sub subs [] x hx with h0 | ⟨d, hd, hxd⟩
  · cases h0
  · obtain ⟨i, hi, hsome⟩ := hsubs d hd
    have hspec := processRowH_spec df matching i d (subHOf_eq_some df matching i d hsome)
    rcases hspec.2.2.1 x hxd with h1 | h2 | h3 | h4 | h5
    · exact helems i hi x h1
    · exact hcf x (hmsub x h2)
    · subst h3
      decide
    · subst h4
      decide
    · have hca : ∀ k ∈ colsToAddH, cleanFree k = true := by decide
      exact hca x h5

theorem hist_full (df : DF) (r : DF) (sk : Option (List String)) (matching : List String)
    (hok : extract_facilities_history df = .ok r)
    (hsk : findSampleKeys (df.rows.map (fun row => rowVal row "riwayat_fasilitas")) = .ok sk)
    (hcm : computeMatching df.cols sk = .ok matching)
    (hcf : ∀ c ∈ df.cols, cleanFree c = true)
    (helems : ∀ i, i < df.rows.length →
      ∀ x ∈ elemKeys (cellD df "riwayat_fasilitas" i), cleanFree x = true) :
    r.rows.length = ((List.range df.rows.length).map (emitLenH df)).sum ∧
    (∀ k ∈ colsToAddH, r.rows.map (fun row => rowVal row k) =
      ((List.range df.rows.length).map
        (fun i => List.replicate (emitLenH df i) (cellD df k i))).flatten) ∧
    (r.rows.map (fun row => rowVal row "snapshot_order") =
      ((List.range df.rows.length).map (fun i =>
        if truthy (cellD df "riwayat_fasilitas" i) then
          (elemsOf (cellD df "riwayat_fasilitas" i)).map
            (fun e => rowVal e "snapshot_order")
        else [Val.vint 1])).flatten) ∧
    (r.rows.map (fun row => rowVal row "status_tunggakan") =
      ((List.range df.rows.length).map (fun i =>
        if truthy (cellD df "riwayat_fasilitas" i) then
          (elemsOf (cellD df "riwayat_fasilitas" i)).map
            (fun e => rowVal e "status_tunggakan")
        else [statusVal (cellD df "tunggakan_pokok" i)])).flatten) ∧
    (∀ m ∈ matching, m ∉ colsToAddH → m ≠ "snapshot_order" → m ≠ "status_tunggakan" →
      r.rows.map (fun row => rowVal row m) =
        ((List.range df.rows.length).map (fun i =>
          if truthy (cellD df "riwayat_fasilitas" i) then
            (elemsOf (cellD df "riwayat_fasilitas" i)).map (fun e => rowVal e m)
          else [cellD df m i])).flatten) ∧
    (∀ row ∈ r.rows, ∃ i, i < df.rows.length ∧
      ∀ k ∈ colsToAddH, rowVal row k = cellD df k i) := by
  obtain ⟨sk', matching', subs, hm, hsk', hcm', hb, hne, hr⟩ := hist_ok_struct df r hok
  have hskeq : sk' = sk := by
    have h2 := hsk'.symm.trans hsk
    simpa using h2
  have hmeq : matching' = matching := by
    rw [hskeq] at hcm'
    have h2 := hcm'.symm.trans hcm
    simpa using h2
  rw [hmeq] at hb
  obtain ⟨hfm, hall⟩ := buildSubsH_ok df matching _ subs hb
  have hsome : ∀ i ∈ List.range df.rows.length, ∃ t, subHOf df matching i = some t := by
    intro i hi
    obtain ⟨t, ht⟩ := hall i hi
    exact ⟨t, by simp [subHOf, ht]⟩
  have hsubs : ∀ t ∈ subs, ∃ i, i < df.rows.length ∧ subHOf df matching i = some t := by
    intro t ht
    rw [hfm] at ht
    obtain ⟨i, hi, h2⟩ := List.mem_filterMap.mp ht
    exact ⟨i, List.mem_range.mp hi, h2⟩
  have hwfs : ∀ t ∈ subs, Wf t := by
    intro t ht
    obtain ⟨i, _, h2⟩ := hsubs t ht
    exact (processRowH_spec df matching i t (subHOf_eq_some df matching i t h2)).2.1
  have hclean := hist_subs_clean df matching subs hsubs hcf
    (computeMatching_sub df.cols sk matching hcm) helems
  have hproj : ∀ k : String, r.rows.map (fun row => rowVal row k) =
      (subs.map (fun t => t.rows.map (fun row => rowVal row k))).flatten := by
    intro k
    rw [hr, hclean]
    exact concatDF_proj subs k hwfs
  have hspec_at : ∀ i ∈ List.range df.rows.length, ∀ t, subHOf df matching i = some t →
      processRowH df matching i = .ok t :=
    fun i _ t h2 => subHOf_eq_some df matching i t h2
  refine ⟨?_, ?_, ?_, ?_, ?_, ?_⟩
  · rw [hr, hclean, concatDF_rows_len, hfm, filterMap_map_sum]
    apply congrArg List.sum
    apply List.map_congr_left
    intro i hi
    obtain ⟨t, ht⟩ := hsome i hi
    rw [ht]
    exact (processRowH_spec df matching i t (hspec_at i hi t ht)).1
  · intro k hk
    rw [hproj k, hfm, filterMap_map_flatten]
    apply congrArg List.flatten
    apply List.map_congr_left
    intro i hi
    obtain ⟨t, ht⟩ := hsome i hi
    rw [ht]
    exact (processRowH_spec df matching i t (hspec_at i hi t ht)).2.2.2.2.1 k hk
  · rw [hproj _, hfm, filterMap_map_flatten]
    apply congrArg List.flatten
    apply List.map_congr_left
    intro i hi
    obtain ⟨t, ht⟩ := hsome i hi
    rw [ht]
    exact (processRowH_spec df matching i t (hspec_at i hi t ht)).2.2.2.2.2.1
  · rw [hproj _, hfm, filterMap_map_flatten]
    apply congrArg List.flatten
    apply List.map_congr_left
    intro i hi
    obtain ⟨t, ht⟩ := hsome i hi
    rw [ht]
    exact (processRowH_spec df matching i t (hspec_at i hi t ht)).2.2.2.2.2.2.1
  · intro m hmm h1 h2 h3
    rw [hproj m, hfm, filterMap_map_flatten]
    apply congrArg List.flatten
    apply List.map_congr_left
    intro i hi
    obtain ⟨t, ht⟩ := hsome i hi
    rw [ht]
    exact (processRowH_spec df matching i t (hspec_at i hi t ht)).2.2.2.2.2.2.2 m hmm h1 h2 h3
  · intro row hrow
    rw [hr, hclean] at hrow
    obtain ⟨t, ht, r0, hr0, rfl⟩ := concatDF_mem subs row hrow
    obtain ⟨i, hi, h2⟩ := hsubs t ht
    have hspec := processRowH_spec df matching i t (subHOf_eq_some df matching i t h2)
    refine ⟨i, hi, ?_⟩
    intro k hk
    have hrv : rowVal (rebuildRow (concatCols subs) r0) k = rowVal r0 k := by
      apply rowVal_rebuild_of_keys_sub
      intro x hx
      rw [hwfs t ht r0 hr0] at hx
      exact concatCols_mem subs [] t ht x hx
    rw [hrv]
    exact hspec.2.2.2.1 r0 hr0 k hk

/-- Reconciler membership form without naming the matching columns. -/
theorem hist_mem_only (df : DF) (r : DF)
    (hok : extract_facilities_history df = .ok r)
    (hcf : ∀ c ∈ df.cols, cleanFree c = true)
    (helems : ∀ i, i < df.rows.length →
      ∀ x ∈ elemKeys (cellD df "riwayat_fasilitas" i), cleanFree x = true) :
    ∀ row ∈ r.rows, ∃ i, i < df.rows.length ∧
      ∀ k ∈ colsToAddH, rowVal row k = cellD df k i := by
  obtain ⟨sk, matching, subs, hm, hsk, hcm, hb, hne, hr⟩ := hist_ok_struct df r hok
  exact (hist_full df r sk matching hok hsk hcm hcf helems).2.2.2.2.2

/-- C2: for every facility row with a falsy (empty) history cell the
reconciler emits exactly one synthesized row — in source order, with
`snapshot_order = 1`, `status_tunggakan` equal to `1` when the row's
`tunggakan_pokok` is positive and `0` otherwise, the matching
(intersection) columns copied from the facility row, and the carried FK
columns copied from the facility row; rows with non-empty history emit
one row per history element instead. -/
theorem c2_reconciler_synthesized_row (df : DF) (r : DF) (sk : Option (List String))
    (matching : List String)
    (hok : extract_facilities_history df = .ok r)
    (hsk : findSampleKeys (df.rows.map (fun row => rowVal row "riwayat_fasilitas")) = .ok sk)
    (hcm : computeMatching df.cols sk = .ok matching)
    (hcf : ∀ c ∈ df.cols, cleanFree c = true)
    (helems : ∀ i, i < df.rows.length →
      ∀ x ∈ elemKeys (cellD df "riwayat_fasilitas" i), cleanFree x = true) :
    (∀ i, truthy (cellD df "riwayat_fasilitas" i) = false → emitLenH df i = 1) ∧
    r.rows.length = ((List.range df.rows.length).map (emitLenH df)).sum ∧
    (r.rows.map (fun row => rowVal row "snapshot_order") =
      ((List.range df.rows.length).map (fun i =>
        if truthy (cellD df "riwayat_fasilitas" i) then
          (elemsOf (cellD df "riwayat_fasilitas" i)).map
            (fun e => rowVal e "snapshot_order")
        else [Val.vint 1])).flatten) ∧
    (r.rows.map (fun row => rowVal row "status_tunggakan") =
      ((List.range df.rows.length).map (fun i =>
        if truthy (cellD df "riwayat_fasilitas" i) then
          (elemsOf (cellD df "riwayat_fasilitas" i)).map
            (fun e => rowVal e "status_tunggakan")
        else [statusVal (cellD df "tunggakan_pokok" i)])).flatten) ∧
    (∀ m ∈ matching, m ∉ colsToAddH → m ≠ "snapshot_order" → m ≠ "status_tunggakan" →
      r.rows.map (fun row => rowVal row m) =
        ((List.range df.rows.length).map (fun i =>
          if truthy (cellD df "riwayat_fasilitas" i) then
            (elemsOf (cellD df "riwayat_fasilitas" i)).map (fun e => rowVal e m)
          else [cellD df m i])).flatten) ∧
    (∀ k ∈ colsToAddH, r.rows.map (fun row => rowVal row k) =
      ((List.range df.rows.length).map
        (fun i => List.replicate (emitLenH df i) (cellD df k i))).flatten) := by
  have hfull := hist_full df r sk matching hok hsk hcm hcf helems
  exact ⟨fun i hf => by unfold emitLenH; rw [if_neg (by simp [hf])],
    hfull.1, hfull.2.2.1, hfull.2.2.2.1, hfull.2.2.2.2.1, hfull.2.1⟩

/-- Witness for C2: arrears 1500 yields one synthesized row with
`snapshot_order = 1`, `status_tunggakan = 1`; arrears 0 yields
`status_tunggakan = 0`; the matching column and the FKs are carried. -/
theorem c2_reconciler_synthesized_row_witness :
    extract_facilities_history c2fac = .ok c2out ∧
    findSampleKeys (c2fac.rows.map (fun row => rowVal row "riwayat_fasilitas")) =
      .ok (some ["snapshot_order", "tunggakan_pokok"]) ∧
    computeMatching c2fac.cols (some ["snapshot_order", "tunggakan_pokok"]) =
      .ok ["tunggakan_pokok"] ∧
    (∀ c ∈ c2fac.cols, cleanFree c = true) ∧
    (∀ i, i < c2fac.rows.length →
      ∀ x ∈ elemKeys (cellD c2fac "riwayat_fasilitas" i), cleanFree x = true) ∧
    c2out.rows.length = 3 ∧
    rowVal (nthRow c2out 1) "snapshot_order" = .vint 1 ∧
    rowVal (nthRow c2out 1) "status_tunggakan" = .vint 1 ∧
    rowVal (nthRow c2out 1) "tunggakan_pokok" = .vint 1500 ∧
    rowVal (nthRow c2out 1) "username" = .vstr "username" ∧
    rowVal (nthRow c2out 2) "snapshot_order" = .vint 1 ∧
    rowVal (nthRow c2out 2) "status_tunggakan" = .vint 0 ∧
    rowVal (nthRow c2out 0) "snapshot_order" = .vint 9 ∧
    (∀ i, truthy (cellD c2fac "riwayat_fasilitas" i) = false → emitLenH c2fac i = 1) ∧
    c2out.rows.length = ((List.range c2fac.rows.length).map (emitLenH c2fac)).sum :=
  ⟨rfl, rfl, rfl, by decide, by decide, rfl, rfl, rfl, rfl, rfl, rfl, rfl, rfl,
   (c2_reconciler_synthesized_row c2fac c2out (some ["snapshot_order", "tunggakan_pokok"])
     ["tunggakan_pokok"] rfl rfl rfl (by decide) (by decide)).1,
   (c2_reconciler_synthesized_row c2fac c2out (some ["snapshot_order", "tunggakan_pokok"])
     ["tunggakan_pokok"] rfl rfl rfl (by decide) (by decide)).2.1⟩

/-- C9: during expansion — both in the List Expander and in the
Reconciler — every carry column of every output row holds the parent
row's value, regardless of what the array element contained under that
key (the parent assignment overwrites any element-supplied value). -/
theorem c9_carry_overwrites_element :
    (∀ (df : DF) (c : String) (ks : List String) (r : DF),
      extract_list_to_dataframe df c ks = .ok r →
      (∀ k ∈ ks, cleanFree k = true) →
      (∀ i, i < df.rows.length → ∀ x ∈ elemKeys (cellD df c i), cleanFree x = true) →
      ∀ row ∈ r.rows, ∃ i, i < df.rows.length ∧
        ∀ k ∈ ks, rowVal row k = cellD df k i) ∧
    (∀ (df r : DF),
      extract_facilities_history df = .ok r →
      (∀ c ∈ df.cols, cleanFree c = true) →
      (∀ i, i < df.rows.length →
        ∀ x ∈ elemKeys (cellD df "riwayat_fasilitas" i), cleanFree x = true) →
      ∀ row ∈ r.rows, ∃ i, i < df.rows.length ∧
        ∀ k ∈ colsToAddH, rowVal row k = cellD df k i) := by
  constructor
  · intro df c ks r hok hksf helems row hrow
    obtain ⟨i, hi, _, hvals⟩ := extract_mem_spec df c ks r hok hksf helems row hrow
    exact ⟨i, hi, hvals⟩
  · intro df r hok hcf helems row hrow
    exact hist_mem_only df r hok hcf helems row hrow

/-- Witness for C9: the element's own `fk = "elem"` is overwritten by
the parent's `fk = "parent"` in the only output row; the reconciler
part is instantiated on `c2fac`, whose history element carries its own
`tunggakan_pokok` yet every output row holds the facility's value. -/
theorem c9_carry_overwrites_element_witness :
    extract_list_to_dataframe c9df "arr" ["fk"] = .ok c9out ∧
    rowVal (nthRow c9out 0) "fk" = .vstr "parent" ∧
    rowVal (nthRow c9out 0) "x" = .vint 7 ∧
    (∀ row ∈ c9out.rows, ∃ i, i < c9df.rows.length ∧
      ∀ k ∈ ["fk"], rowVal row k = cellD c9df k i) ∧
    rowVal (nthRow c2out 0) "username" = .vstr "username" ∧
    (∀ row ∈ c2out.rows, ∃ i, i < c2fac.rows.length ∧
      ∀ k ∈ colsToAddH, rowVal row k = cellD c2fac k i) :=
  ⟨rfl, rfl, rfl,
   c9_carry_overwrites_element.1 c9df "arr" ["fk"] c9out rfl (by decide) (by decide),
   rfl,
   c9_carry_overwrites_element.2 c2fac c2out rfl (by decide) (by decide)⟩

/-! ### The single-row report level -/

theorem rowVal_cleanRow (r : List (String × Val)) (d : String)
    (hinj : ∀ p ∈ r, cleanName p.1 = cleanName d → p.1 = d) :
    rowVal (cleanRow r) (cleanName d) = rowVal r d := by
  induction r with
  | nil => rfl
  | cons p rest ih =>
    cases p with
    | mk k0 v0 =>
      show (if cleanName k0 = cleanName d then v0 else rowVal (cleanRow rest) (cleanName d)) =
        (if k0 = d then v0 else rowVal rest d)
      by_cases he : cleanName k0 = cleanName d
      · rw [if_pos he, if_pos (hinj (k0, v0) (by simp) he)]
      · have hne : k0 ≠ d := fun h => he (by rw [h])
        rw [if_neg he, if_neg hne, ih (fun p hp hc => hinj p (by simp [hp]) hc)]

theorem getD_mem_of_lt {α : Type} (l : List α) (i : Nat) (d : α) (h : i < l.length) :
    l.getD i d ∈ l := by
  rw [List.getD_eq_getElem?_getD, List.getElem?_eq_getElem h]
  simp only [Option.getD_some]
  exact List.getElem_mem h

theorem lvl1_extract (df : DF) (c : String) (r : DF)
    (h1 : df.rows.length = 1)
    (hok : extract_list_to_dataframe df c colsBasic = .ok r)
    (helems : ∀ x ∈ elemKeys (cellD df c 0), cleanFree x = true ∧ x ∉ cleanedIds) :
    (∀ x ∈ r.cols, cleanFree x = true) ∧
    (∀ row ∈ r.rows, ∃ l e, cellD df c 0 = .vlist l ∧ e ∈ l ∧
      (∀ d ∈ colsBasic, rowVal row (cleanName d) = cellD df d 0) ∧
      (∀ m, cleanFree m = true → m ∉ cleanedIds → rowVal row m = rowVal e m)) := by
  obtain ⟨subs, hb, hcases⟩ := extract_ok_cases df c colsBasic r hok
  rw [h1] at hb
  rw [show List.range 1 = [0] from rfl] at hb
  obtain ⟨hfm, hall⟩ := buildSubs_ok df c colsBasic [0] subs hb
  cases hso : subOf df c colsBasic 0 with
  | none =>
    have hsubs_nil : subs = [] := by
      rw [hfm]
      simp [hso]
    rcases hcases with ⟨_, hr⟩ | ⟨hne, _⟩
    · subst hr
      exact ⟨fun x hx => absurd hx (by simp), fun row hrow => absurd hrow (by simp)⟩
    · exact absurd hsubs_nil hne
  | some t =>
    have hsubs_t : subs = [t] := by
      rw [hfm]
      simp [hso]
    rcases hcases with ⟨h2, _⟩ | ⟨_, hr⟩
    · rw [hsubs_t] at h2
      cases h2
    · subst hr
      rw [hsubs_t]
      have hpr := subOf_eq_some df c colsBasic 0 t hso
      obtain ⟨hm, l, hv, ht, ha⟩ := processRow_ok_some df c colsBasic 0 t hpr
      obtain ⟨hks, F, hrowsF, hspecF, hsubF, hnd⟩ :=
        addCols_spec df 0 colsBasic (dfOfRecords l) t ha
      have htnodup : t.cols.Nodup := hnd (dictCols_nodup l)
      have hcs : concatCols [t] = t.cols := concatCols_single t htnodup
      have hconcat_rows : (concatDF [t]).rows = t.rows.map (rebuildRow t.cols) := by
        show ([t].map (fun d => d.rows.map (rebuildRow (concatCols [t])))).flatten = _
        rw [hcs]
        simp
      have hsub' : ∀ x ∈ t.cols, x ∈ dictCols l ∨ x ∈ colsBasic := hsubF
      have hdict_free : ∀ x ∈ dictCols l, cleanFree x = true ∧ x ∉ cleanedIds := by
        intro x hx
        rcases dictCols_sub l [] x hx with h0 | ⟨e, he, hxe⟩
        · cases h0
        · exact helems x (by rw [hv]; exact mem_elemKeys (by simpa [elemsOf] using he) hxe)
      have hbasic_ids : ∀ d ∈ colsBasic, cleanName d ∈ cleanedIds ∧
          cleanFree (cleanName d) = true := by decide
      have hbasic_inj : ∀ a ∈ colsBasic, ∀ b ∈ colsBasic,
          cleanName a = cleanName b → a = b := by decide
      have hbasic_dirty : ∀ d ∈ colsBasic, cleanFree d = false := by decide
      constructor
      · intro x hx
        have hx2 : x ∈ (concatCols [t]).map cleanName := hx
        rw [hcs] at hx2
        obtain ⟨y, hy, rfl⟩ := List.mem_map.mp hx2
        rcases hsub' y hy with h3 | h4
        · rw [cleanName_fixed y (hdict_free y h3).1]
          exact (hdict_free y h3).1
        · exact (hbasic_ids y h4).2
      · intro row hrow
        have hrow2 : row ∈ ((concatDF [t]).rows).map cleanRow := hrow
        rw [hconcat_rows] at hrow2
        obtain ⟨rb, hrb, rfl⟩ := List.mem_map.mp hrow2
        obtain ⟨rr, hrr, rfl⟩ := List.mem_map.mp hrb
        rw [hrowsF] at hrr
        obtain ⟨r0, hr0, rfl⟩ := List.mem_map.mp hrr
        obtain ⟨e, he, rfl⟩ := List.mem_map.mp hr0
        refine ⟨l, e, hv, he, ?_, ?_⟩
        all_goals {
          have hkeys_rrF : (F (rebuildRow (dictCols l) e)).map Prod.fst = t.cols :=
            (hspecF _ (rebuildRow_keys _ _)).1
          have hvalF : ∀ k'', rowVal (F (rebuildRow (dictCols l) e)) k'' =
              if k'' ∈ colsBasic then cellD df k'' 0
              else rowVal (rebuildRow (dictCols l) e) k'' :=
            (hspecF _ (rebuildRow_keys _ _)).2
          have hreb : ∀ k, rowVal (rebuildRow t.cols (F (rebuildRow (dictCols l) e))) k =
              rowVal (F (rebuildRow (dictCols l) e)) k := by
            intro k
            apply rowVal_rebuild_of_keys_sub
            intro x hx
            rw [hkeys_rrF] at hx
            exact hx
          have hkey_of_mem : ∀ p, p ∈ rebuildRow t.cols (F (rebuildRow (dictCols l) e)) →
              p.1 ∈ t.cols := by
            intro p hp
            have hmem := List.mem_map_of_mem Prod.fst hp
            rw [rebuildRow_keys] at hmem
            exact hmem
          first
          | { intro d hd
              have hinj : ∀ p ∈ rebuildRow t.cols (F (rebuildRow (dictCols l) e)),
                  cleanName p.1 = cleanName d → p.1 = d := by
                intro p hp heq
                rcases hsub' p.1 (hkey_of_mem p hp) with h3 | h4
                · exfalso
                  have hfree := (hdict_free p.1 h3).1
                  have hnid := (hdict_free p.1 h3).2
                  rw [cleanName_fixed p.1 hfree] at heq
                  rw [heq] at hnid
                  exact hnid (hbasic_ids d hd).1
                · exact hbasic_inj p.1 h4 d hd heq
              rw [rowVal_cleanRow _ d hinj, hreb d, hvalF d, if_pos hd] }
          | { intro m hmf hmnid
              have hinj : ∀ p ∈ rebuildRow t.cols (F (rebuildRow (dictCols l) e)),
                  cleanName p.1 = cleanName m → p.1 = m := by
                intro p hp heq
                rw [cleanName_fixed m hmf] at heq
                rcases hsub' p.1 (hkey_of_mem p hp) with h3 | h4
                · rw [cleanName_fixed p.1 (hdict_free p.1 h3).1] at heq
                  exact heq
                · exfalso
                  have hin := (hbasic_ids p.1 h4).1
                  rw [heq] at hin
                  exact hmnid hin
              have hstep := rowVal_cleanRow
                (rebuildRow t.cols (F (rebuildRow (dictCols l) e))) m hinj
              rw [cleanName_fixed m hmf] at hstep
              have hnb : m ∉ colsBasic := by
                intro hmb
                rw [hbasic_dirty m hmb] at hmf
                cases hmf
              rw [hstep, hreb m, hvalF m, if_neg hnb]
              apply rowVal_rebuild_of_keys_sub
              intro x hx
              obtain ⟨p, hp, rfl⟩ := List.mem_map.mp hx
              exact dictCols_mem l [] e he p hp }
        }

theorem pefindo_ok_struct (json_df : DF) (out : List (String × DF))
    (hok : extract_pefindo_data json_df = .ok out) :
    ∃ scoring infoSel facilities facHistory collateral guarantor inquiry
      inquirySummary infoHistory collectibility,
      extract_list_to_dataframe json_df "scoring" colsBasic = .ok scoring ∧
      selectColsE json_df
        (json_df.cols.filter isDebiturCol ++
         ["report.header.username", "report.header.id_report",
          "report.header.tgl_permintaan"]) = .ok infoSel ∧
      extract_list_to_dataframe json_df "report.fasilitas" colsBasic = .ok facilities ∧
      extract_facilities_history facilities = .ok facHistory ∧
      extract_list_to_dataframe facilities "agunan" colsFacilities = .ok collateral ∧
      extract_list_to_dataframe facilities "penjamin" colsFacilities = .ok guarantor ∧
      extract_list_to_dataframe json_df "report.permintaan_data" colsBasic = .ok inquiry ∧
      extract_list_to_dataframe json_df "report.summary_permintaan_data" colsBasic =
        .ok inquirySummary ∧
      extract_list_to_dataframe json_df "report.riwayat_identitas_debitur" colsBasic =
        .ok infoHistory ∧
      extract_list_to_dataframe json_df "report.summary_riwayat_debitur" colsBasic =
        .ok collectibility ∧
      out = [("pefindo_scoring", scoring),
             ("pefindo_information_summary", clean_column_names infoSel),
             ("pefindo_facilities", facilities),
             ("pefindo_facilities_history", facHistory),
             ("pefindo_facilities_collateral", collateral),
             ("pefindo_facilities_guarantor", guarantor),
             ("pefindo_inquiry", inquiry),
             ("pefindo_inquiry_summary", inquirySummary),
             ("pefindo_information_history", infoHistory),
             ("pefindo_collectibility_history", collectibility)] := by
  cases e1 : extract_list_to_dataframe json_df "scoring" colsBasic with
  | error e =>
    exfalso
    have hbad : extract_pefindo_data json_df = .error e := by
      simp [extract_pefindo_data, e1]
    rw [hbad] at hok
    cases hok
  | ok scoring =>
  cases e2 : selectColsE json_df
      (json_df.cols.filter isDebiturCol ++
       ["report.header.username", "report.header.id_report",
        "report.header.tgl_permintaan"]) with
  | error e =>
    exfalso
    have hbad : extract_pefindo_data json_df = .error e := by
      simp [extract_pefindo_data, e1, e2]
    rw [hbad] at hok
    cases hok
  | ok infoSel =>
  cases e3 : extract_list_to_dataframe json_df "report.fasilitas" colsBasic with
  | error e =>
    exfalso
    have hbad : extract_pefindo_data json_df = .error e := by
      simp [extract_pefindo_data, e1, e2, e3]
    rw [hbad] at hok
    cases hok
  | ok facilities =>
  cases e4 : extract_facilities_history facilities with
  | error e =>
    exfalso
    have hbad : extract_pefindo_data json_df = .error e := by
      simp [extract_pefindo_data, e1, e2, e3, e4]
    rw [hbad] at hok
    cases hok
  | ok facHistory =>
  cases e5 : extract_list_to_dataframe facilities "agunan" colsFacilities with
  | error e =>
    exfalso
    have hbad : extract_pefindo_data json_df = .error e := by
      simp [extract_pefindo_data, e1, e2, e3, e4, e5]
    rw [hbad] at hok
    cases hok
  | ok collateral =>
  cases e6 : extract_list_to_dataframe facilities "penjamin" colsFacilities with
  | error e =>
    exfalso
    have hbad : extract_pefindo_data json_df = .error e := by
      simp [extract_pefindo_data, e1, e2, e3, e4, e5, e6]
    rw [hbad] at hok
    cases hok
  | ok guarantor =>
  cases e7 : extract_list_to_dataframe json_df "report.permintaan_data" colsBasic with
  | error e =>
    exfalso
    have hbad : extract_pefindo_data json_df = .error e := by
      simp [extract_pefindo_data, e1, e2, e3, e4, e5, e6, e7]
    rw [hbad] at hok
    cases hok
  | ok inquiry =>
  cases e8 : extract_list_to_dataframe json_df "report.summary_permintaan_data" colsBasic with
  | error e =>
    exfalso
    have hbad : extract_pefindo_data json_df = .error e := by
      simp [extract_pefindo_data, e1, e2, e3, e4, e5, e6, e7, e8]
    rw [hbad] at hok
    cases hok
  | ok inquirySummary =>
  cases e9 : extract_list_to_dataframe json_df "report.riwayat_identitas_debitur" colsBasic with
  | error e =>
    exfalso
    have hbad : extract_pefindo_data json_df = .error e := by
      simp [extract_pefindo_data, e1, e2, e3, e4, e5, e6, e7, e8, e9]
    rw [hbad] at hok
    cases hok
  | ok infoHistory =>
  cases e10 : extract_list_to_dataframe json_df "report.summary_riwayat_debitur" colsBasic with
  | error e =>
    exfalso
    have hbad : extract_pefindo_data json_df = .error e := by
      simp [extract_pefindo_data, e1, e2, e3, e4, e5, e6, e7, e8, e9, e10]
    rw [hbad] at hok
    cases hok
  | ok collectibility =>
  have hgood : extract_pefindo_data json_df =
      .ok [("pefindo_scoring", scoring),
           ("pefindo_information_summary", clean_column_names infoSel),
           ("pefindo_facilities", facilities),
           ("pefindo_facilities_history", facHistory),
           ("pefindo_facilities_collateral", collateral),
           ("pefindo_facilities_guarantor", guarantor),
           ("pefindo_inquiry", inquiry),
           ("pefindo_inquiry_summary", inquirySummary),
           ("pefindo_information_history", infoHistory),
           ("pefindo_collectibility_history", collectibility)] := by
    simp [extract_pefindo_data, e1, e2, e3, e4, e5, e6, e7, e8, e9, e10]
  rw [hgood] at hok
  exact ⟨scoring, infoSel, facilities, facHistory, collateral, guarantor, inquiry,
    inquirySummary, infoHistory, collectibility, rfl, rfl, rfl, e4, e5, e6, rfl,
    rfl, rfl, rfl, by simpa using hok.symm⟩

theorem fac_facts (json_df : DF) (facilities : DF)
    (hgood : GoodReport json_df)
    (hfac : extract_list_to_dataframe json_df "report.fasilitas" colsBasic =
      .ok facilities) :
    (∀ x ∈ facilities.cols, cleanFree x = true) ∧
    (∀ row ∈ facilities.rows, ∀ d ∈ colsBasic,
      rowVal row (cleanName d) = cellD json_df d 0) ∧
    (∀ i, i < facilities.rows.length →
      ∀ a ∈ ["riwayat_fasilitas", "agunan", "penjamin"],
        ∀ x ∈ elemKeys (cellD facilities a i), cleanFree x = true) := by
  obtain ⟨hlen, hids, hlvl1, hlvl2⟩ := hgood
  have helems : ∀ x ∈ elemKeys (cellD json_df "report.fasilitas" 0),
      cleanFree x = true ∧ x ∉ cleanedIds :=
    hlvl1 "report.fasilitas" (by decide)
  obtain ⟨hcols, hrows⟩ := lvl1_extract json_df "report.fasilitas" facilities hlen hfac helems
  refine ⟨hcols, ?_, ?_⟩
  · intro row hrow d hd
    obtain ⟨l, e, hv, he, hid, hm⟩ := hrows row hrow
    exact hid d hd
  · intro i hi a ha x hx
    have hafacts : ∀ a0 ∈ ["riwayat_fasilitas", "agunan", "penjamin"],
        cleanFree a0 = true ∧ a0 ∉ cleanedIds := by decide
    have hrowmem : nthRow facilities i ∈ facilities.rows := getD_mem_of_lt _ i [] hi
    obtain ⟨l, e, hv, he, hid, hm⟩ := hrows _ hrowmem
    have hcell : cellD facilities a i = rowVal e a :=
      hm a (hafacts a ha).1 (hafacts a ha).2
    rw [hcell] at hx
    have hmem : e ∈ elemsOf (cellD json_df "report.fasilitas" 0) := by
      rw [hv]
      exact he
    exact hlvl2 e hmem a ha x hx

/-- C1: in every child table produced by the extraction, every row's
Identifier Columns are non-null and equal to the Report Record's
corresponding (dotted-path) values — including the second-level tables
derived from the facilities table. -/
theorem c1_identifier_propagation (json_df : DF) (out : List (String × DF))
    (hok : extract_pefindo_data json_df = .ok out)
    (hgood : GoodReport json_df) :
    ∀ name df, (name, df) ∈ out → name ∈ childTables →
      ∀ row ∈ df.rows, ∀ p ∈ idPairs,
        rowVal row p.1 = cellD json_df p.2 0 ∧ (rowVal row p.1).isNull = false := by
  obtain ⟨scoring, infoSel, facilities, facHistory, collateral, guarantor, inquiry,
    inquirySummary, infoHistory, collectibility, e1, e2, e3, e4, e5, e6, e7, e8, e9,
    e10, hout⟩ := pefindo_ok_struct json_df out hok
  have hpair_facts : ∀ p ∈ idPairs, cleanName p.2 = p.1 ∧ p.2 ∈ colsBasic ∧
      p.1 ∈ colsFacilities ∧ p.1 ∈ colsToAddH ∧ p.1 ∈ cleanedIds := by decide
  have hlen := hgood.1
  have hids := hgood.2.1
  have hlvl1 := hgood.2.2.1
  have hnonnull : ∀ p ∈ idPairs, (cellD json_df p.2 0).isNull = false :=
    fun p hp => hids p.2 (hpair_facts p hp).2.1
  have hlvl1tab : ∀ c ∈ lvl1Arrays, ∀ tbl : DF,
      extract_list_to_dataframe json_df c colsBasic = .ok tbl →
      ∀ row ∈ tbl.rows, ∀ p ∈ idPairs, rowVal row p.1 = cellD json_df p.2 0 := by
    intro c hc tbl htbl row hrow p hp
    obtain ⟨hcols, hrows⟩ := lvl1_extract json_df c tbl hlen htbl (hlvl1 c hc)
    obtain ⟨l, e, hv, he, hid, hm⟩ := hrows row hrow
    have hval := hid p.2 (hpair_facts p hp).2.1
    rw [(hpair_facts p hp).1] at hval
    exact hval
  have hff := fac_facts json_df facilities hgood e3
  have hfacid : ∀ i, i < facilities.rows.length → ∀ p ∈ idPairs,
      cellD facilities p.1 i = cellD json_df p.2 0 := by
    intro i hi p hp
    have hrowmem := getD_mem_of_lt facilities.rows i ([] : List (String × Val)) hi
    have hval := hff.2.1 _ hrowmem p.2 (hpair_facts p hp).2.1
    rw [(hpair_facts p hp).1] at hval
    exact hval
  have hcoll : ∀ row ∈ collateral.rows, ∀ p ∈ idPairs,
      rowVal row p.1 = cellD json_df p.2 0 := by
    intro row hrow p hp
    obtain ⟨i, hi, _, hvals⟩ := extract_mem_spec facilities "agunan" colsFacilities
      collateral e5 (by decide)
      (fun i hi x hx => hff.2.2 i hi "agunan" (by decide) x hx) row hrow
    rw [hvals p.1 (hpair_facts p hp).2.2.1]
    exact hfacid i hi p hp
  have hguar : ∀ row ∈ guarantor.rows, ∀ p ∈ idPairs,
      rowVal row p.1 = cellD json_df p.2 0 := by
    intro row hrow p hp
    obtain ⟨i, hi, _, hvals⟩ := extract_mem_spec facilities "penjamin" colsFacilities
      guarantor e6 (by decide)
      (fun i hi x hx => hff.2.2 i hi "penjamin" (by decide) x hx) row hrow
    rw [hvals p.1 (hpair_facts p hp).2.2.1]
    exact hfacid i hi p hp
  have hhist : ∀ row ∈ facHistory.rows, ∀ p ∈ idPairs,
      rowVal row p.1 = cellD json_df p.2 0 := by
    intro row hrow p hp
    obtain ⟨i, hi, hvals⟩ := hist_mem_only facilities facHistory e4 hff.1
      (fun i hi x hx => hff.2.2 i hi "riwayat_fasilitas" (by decide) x hx) row hrow
    rw [hvals p.1 (hpair_facts p hp).2.2.2.1]
    exact hfacid i hi p hp
  subst hout
  intro name df hmem hchild
  have hfin : ∀ row ∈ df.rows, ∀ p ∈ idPairs,
      rowVal row p.1 = cellD json_df p.2 0 := by
    simp only [List.mem_cons, List.not_mem_nil, or_false, Prod.mk.injEq] at hmem
    rcases hmem with ⟨h1, h2⟩ | ⟨h1, h2⟩ | ⟨h1, h2⟩ | ⟨h1, h2⟩ | ⟨h1, h2⟩ | ⟨h1, h2⟩ |
      ⟨h1, h2⟩ | ⟨h1, h2⟩ | ⟨h1, h2⟩ | ⟨h1, h2⟩
    · subst h2
      exact hlvl1tab "scoring" (by decide) df e1
    · subst h1
      exact absurd hchild (by decide)
    · subst h2
      exact hlvl1tab "report.fasilitas" (by decide) df e3
    · subst h2
      exact hhist
    · subst h2
      exact hcoll
    · subst h2
      exact hguar
    · subst h2
      exact hlvl1tab "report.permintaan_data" (by decide) df e7
    · subst h2
      exact hlvl1tab "report.summary_permintaan_data" (by decide) df e8
    · subst h2
      exact hlvl1tab "report.riwayat_identitas_debitur" (by decide) df e9
    · subst h2
      exact hlvl1tab "report.summary_riwayat_debitur" (by decide) df e10
  intro row hrow p hp
  refine ⟨hfin row hrow p hp, ?_⟩
  rw [hfin row hrow p hp]
  exact hnonnull p hp

/-- C4: the collateral table is derived from the facilities expansion
output (two-level pipeline): its row count is the sum over the rows of
the facilities table of each facility's `agunan` array length, and
every collateral row's facility-level FK columns equal those of its
source facility row. -/
theorem c4_two_level_collateral (json_df : DF) (out : List (String × DF))
    (hok : extract_pefindo_data json_df = .ok out)
    (hgood : GoodReport json_df) :
    ∀ fac coll : DF,
      List.lookup "pefindo_facilities" out = some fac →
      List.lookup "pefindo_facilities_collateral" out = some coll →
      coll.rows.length =
        ((List.range fac.rows.length).map
          (fun i => elemsLen (cellD fac "agunan" i))).sum ∧
      ∀ row ∈ coll.rows, ∃ i, i < fac.rows.length ∧
        ∀ k ∈ colsFacilities, rowVal row k = cellD fac k i := by
  obtain ⟨scoring, infoSel, facilities, facHistory, collateral, guarantor, inquiry,
    inquirySummary, infoHistory, collectibility, e1, e2, e3, e4, e5, e6, e7, e8, e9,
    e10, hout⟩ := pefindo_ok_struct json_df out hok
  have hff := fac_facts json_df facilities hgood e3
  intro fac coll hfac hcoll
  subst hout
  have hlk1 : List.lookup "pefindo_facilities"
      [("pefindo_scoring", scoring),
       ("pefindo_information_summary", clean_column_names infoSel),
       ("pefindo_facilities", facilities),
       ("pefindo_facilities_history", facHistory),
       ("pefindo_facilities_collateral", collateral),
       ("pefindo_facilities_guarantor", guarantor),
       ("pefindo_inquiry", inquiry),
       ("pefindo_inquiry_summary", inquirySummary),
       ("pefindo_information_history", infoHistory),
       ("pefindo_collectibility_history", collectibility)] = some facilities := rfl
  have hlk2 : List.lookup "pefindo_facilities_collateral"
      [("pefindo_scoring", scoring),
       ("pefindo_information_summary", clean_column_names infoSel),
       ("pefindo_facilities", facilities),
       ("pefindo_facilities_history", facHistory),
       ("pefindo_facilities_collateral", collateral),
       ("pefindo_facilities_guarantor", guarantor),
       ("pefindo_inquiry", inquiry),
       ("pefindo_inquiry_summary", inquirySummary),
       ("pefindo_information_history", infoHistory),
       ("pefindo_collectibility_history", collectibility)] = some collateral := rfl
  rw [hlk1] at hfac
  rw [hlk2] at hcoll
  have hfeq : facilities = fac := Option.some.inj hfac
  have hceq : collateral = coll := Option.some.inj hcoll
  rw [hfeq] at e5 hff
  rw [hceq] at e5
  have helems : ∀ i, i < fac.rows.length →
      ∀ x ∈ elemKeys (cellD fac "agunan" i), cleanFree x = true :=
    fun i hi x hx => hff.2.2 i hi "agunan" (by decide) x hx
  constructor
  · exact (extract_proj_spec fac "agunan" colsFacilities coll e5 (by decide) helems).1
  · intro row hrow
    obtain ⟨i, hi, _, hvals⟩ :=
      extract_mem_spec fac "agunan" colsFacilities coll e5 (by decide) helems row hrow
    exact ⟨i, hi, hvals⟩

/-- Witness for C1 on `wjson`. -/
theorem c1_identifier_propagation_witness :
    GoodReport wjson ∧
    extract_pefindo_data wjson = .ok wout ∧
    (∀ name df, (name, df) ∈ wout → name ∈ childTables →
      ∀ row ∈ df.rows, ∀ p ∈ idPairs,
        rowVal row p.1 = cellD wjson p.2 0 ∧ (rowVal row p.1).isNull = false) :=
  ⟨by unfold GoodReport; decide, rfl,
   c1_identifier_propagation wjson wout rfl (by unfold GoodReport; decide)⟩

/-- Witness for C4 on `wjson`: two facilities with 2 and 1 collateral
entries yield 3 collateral rows, FKs matching their facilities. -/
theorem c4_two_level_collateral_witness :
    extract_pefindo_data wjson = .ok wout ∧
    GoodReport wjson ∧
    List.lookup "pefindo_facilities" wout = some wfac ∧
    List.lookup "pefindo_facilities_collateral" wout = some wcoll ∧
    wfac.rows.length = 2 ∧
    wcoll.rows.length = 3 ∧
    (wcoll.rows.length =
      ((List.range wfac.rows.length).map
        (fun i => elemsLen (cellD wfac "agunan" i))).sum ∧
     ∀ row ∈ wcoll.rows, ∃ i, i < wfac.rows.length ∧
       ∀ k ∈ colsFacilities, rowVal row k = cellD wfac k i) :=
  ⟨rfl, by unfold GoodReport; decide, rfl, rfl, rfl, rfl,
   c4_two_level_collateral wjson wout rfl (by unfold GoodReport; decide) wfac wcoll
     rfl rfl⟩
